import Mathlib

/-!
# ebiten-chipmunk: debug drawer and drag handler

A shallow embedding of `ebitencp.go`.

Numbers: a `float64` is read as an element of an ordered field `K`
(exact arithmetic); the conversions `float32(·)` and `float64(·)` are the
identity resp. the cast of an integer.  The one special value the code
creates on purpose, the pair `{NaN, NaN}` returned by `ScreenToWorld`, is
`none` in `Option (Vector K)`.

What `ScreenToWorld` returns when a computation overflows is a matter of
`float64` itself: for that the function is embedded a second time over `F64`,
the numbers with the infinities and NaN of IEEE 754.
-/

namespace Ebitencp

/-! ## cp.Vector -/

/-- The value type `cp.Vector` of the physics library: a pair of coordinates. -/
structure Vector (K : Type) where
  X : K
  Y : K
deriving DecidableEq, Repr

namespace Vector

variable {K : Type} [LinearOrderedField K]

/-- Library method `cp.Vector.Add`. -/
def Add (v other : Vector K) : Vector K := ⟨v.X + other.X, v.Y + other.Y⟩

/-- Library method `cp.Vector.Sub`. -/
def Sub (v other : Vector K) : Vector K := ⟨v.X - other.X, v.Y - other.Y⟩

/-- Library method `cp.Vector.Mult`: scaling by a number. -/
def Mult (v : Vector K) (s : K) : Vector K := ⟨v.X * s, v.Y * s⟩

/-- Library method `cp.Vector.Dot`. -/
def Dot (v other : Vector K) : K := v.X * other.X + v.Y * other.Y

/-- Library method `cp.Vector.ReversePerp`: the vector turned by -90 degrees. -/
def ReversePerp (v : Vector K) : Vector K := ⟨v.Y, -v.X⟩

/-- Library method `cp.Vector.Length`, over the square root function `sqrt`
(`math.Sqrt`) taken as a parameter. -/
def Length (sqrt : K → K) (v : Vector K) : K := sqrt (v.Dot v)

/-- Modelled from the spec: `cp.Vector.Normalize` (physics library, not in
src/) gives the vector of unit length in the direction of `v`: `v` scaled by
the inverse of its length.  (The library adds the smallest positive float to
the length before dividing, which only matters for the zero vector; both
versions send the zero vector to itself.) -/
def Normalize (sqrt : K → K) (v : Vector K) : Vector K := v.Mult (1 / v.Length sqrt)

/-- Library method `cp.Vector.Lerp`: linear interpolation from `v` to `other`. -/
def Lerp (v other : Vector K) (t : K) : Vector K := (v.Mult (1 - t)).Add (other.Mult t)

end Vector

/-! ## ebiten.GeoM -/

/-- The 2D affine matrix `ebiten.GeoM` of the renderer.  As in the library the
diagonal is stored minus one, so that the zero value is the identity. -/
structure GeoM (K : Type) where
  a_1 : K
  b : K
  c : K
  d_1 : K
  tx : K
  ty : K
deriving DecidableEq, Repr

namespace GeoM

variable {K : Type} [LinearOrderedField K]

/-- The zero value `ebiten.GeoM{}`: the identity matrix. -/
def zero : GeoM K := ⟨0, 0, 0, 0, 0, 0⟩

/-- Library method `GeoM.Apply`: the image of the point `(x, y)`. -/
def Apply (g : GeoM K) (x y : K) : K × K :=
  ((g.a_1 + 1) * x + g.b * y + g.tx, g.c * x + (g.d_1 + 1) * y + g.ty)

/-- Library method `GeoM.Scale`: scale the matrix by `(x, y)`. -/
def Scale (g : GeoM K) (x y : K) : GeoM K :=
  { a_1 := (g.a_1 + 1) * x - 1
    b := g.b * x
    c := g.c * y
    d_1 := (g.d_1 + 1) * y - 1
    tx := g.tx * x
    ty := g.ty * y }

/-- Library method `GeoM.Translate`: translate the matrix by `(tx, ty)`. -/
def Translate (g : GeoM K) (tx ty : K) : GeoM K :=
  { g with tx := g.tx + tx, ty := g.ty + ty }

/-- Library method `GeoM.Concat`: the product `other * g` (first `g`, then `other`). -/
def Concat (g other : GeoM K) : GeoM K :=
  { a_1 := (other.a_1 + 1) * (g.a_1 + 1) + other.b * g.c - 1
    b := (other.a_1 + 1) * g.b + other.b * (g.d_1 + 1)
    c := other.c * (g.a_1 + 1) + (other.d_1 + 1) * g.c
    d_1 := other.c * g.b + (other.d_1 + 1) * (g.d_1 + 1) - 1
    tx := (other.a_1 + 1) * g.tx + other.b * g.ty + other.tx
    ty := other.c * g.tx + (other.d_1 + 1) * g.ty + other.ty }

/-- Library helper `GeoM.det2x2`: the determinant of the linear part. -/
def det2x2 (g : GeoM K) : K := (g.a_1 + 1) * (g.d_1 + 1) - g.b * g.c

/-- Library method `GeoM.IsInvertible`. -/
def IsInvertible (g : GeoM K) : Bool := g.det2x2 != 0

/-- Library method `GeoM.Invert` (called by the code only after `IsInvertible`). -/
def Invert (g : GeoM K) : GeoM K :=
  let det := g.det2x2
  { a_1 := (g.d_1 + 1) / det - 1
    b := -g.b / det
    c := -g.c / det
    d_1 := (g.a_1 + 1) / det - 1
    tx := (-(g.d_1 + 1) * g.tx + g.b * g.ty) / det
    ty := (g.c * g.tx + -(g.a_1 + 1) * g.ty) / det }

end GeoM

/-! ## The transform pipeline -/

/-- The deprecated camera of the drawer: an offset. -/
structure Camera (K : Type) where
  Offset : Vector K
deriving DecidableEq, Repr

/-- A vertex `ebiten.Vertex` of a triangle mesh. -/
structure Vertex (K : Type) where
  DstX : K
  DstY : K
  SrcX : K
  SrcY : K
  ColorR : K
  ColorG : K
  ColorB : K
  ColorA : K
deriving DecidableEq, Repr

section Transform

variable {K : Type} [LinearOrderedField K]

/-- The factor `f` of `applyMatrixToVertices` and `ScreenToWorld`:
`-1`, and `1` when `flipYAxis` is set. -/
def flipFactor (flipYAxis : Bool) : K := if flipYAxis then 1 else -1

/-- Lines 267-274 of `applyMatrixToVertices`: the matrix the vertices are
sent through. -/
def forwardMatrix (matrix : GeoM K) (camera : Camera K) (flipYAxis : Bool)
    (screenWidth screenHeight : Int) : GeoM K :=
  let f : K := flipFactor flipYAxis
  let matrix := matrix.Scale 1 f
  let matrix := matrix.Translate (-camera.Offset.X) (-camera.Offset.Y * f)
  matrix.Translate ((screenWidth : K) / 2) ((screenHeight : K) / 2)

/-- The function `applyMatrixToVertices`: every vertex is moved by the forward
matrix and stamped with the source position `(1, 1)` and the colour. -/
def applyMatrixToVertices (vs : List (Vertex K)) (matrix : GeoM K) (camera : Camera K)
    (flipYAxis : Bool) (screenWidth screenHeight : Int) (r g b a : K) : List (Vertex K) :=
  let m := forwardMatrix matrix camera flipYAxis screenWidth screenHeight
  vs.map fun v =>
    let p := m.Apply v.DstX v.DstY
    { DstX := p.1, DstY := p.2, SrcX := 1, SrcY := 1,
      ColorR := r, ColorG := g, ColorB := b, ColorA := a }

/-- The world-to-screen map on points: where `applyMatrixToVertices` puts a
vertex that sits at `p`. -/
def worldToScreen (p : Vector K) (matrix : GeoM K) (camera : Camera K) (flipYAxis : Bool)
    (screenWidth screenHeight : Int) : Vector K :=
  let q := (forwardMatrix matrix camera flipYAxis screenWidth screenHeight).Apply p.X p.Y
  ⟨q.1, q.2⟩

/-- The function `ScreenToWorld`.  The result `none` is the vector
`{NaN, NaN}` of the else branch. -/
def ScreenToWorld (screenPoint : Vector K) (cameraGeoM : GeoM K) (camera : Camera K)
    (flipYAxis : Bool) (screenWidth screenHeight : Int) : Option (Vector K) :=
  if cameraGeoM.IsInvertible then
    let cameraGeoM := cameraGeoM.Invert
    let f : K := flipFactor flipYAxis
    let matrix : GeoM K := GeoM.zero
    let matrix := matrix.Translate (-(screenWidth : K) / 2) (-(screenHeight : K) / 2)
    let matrix := matrix.Translate camera.Offset.X (camera.Offset.Y * f)
    let matrix := matrix.Scale 1 f
    let matrix := matrix.Concat cameraGeoM
    let w := matrix.Apply screenPoint.X screenPoint.Y
    some ⟨w.1, w.2⟩
  else
    none

end Transform

/-! ## DrawPolygon -/

/-- A command of a `vector.Path`, as the code issues it. -/
inductive PathOp (K : Type) where
  | MoveTo (x y : K)
  | LineTo (x y : K)
  | ArcTo (x1 y1 x2 y2 radius : K)
  | Close
deriving DecidableEq, Repr

/-- The kind of a path command, without its coordinates. -/
inductive OpKind where
  | moveTo
  | lineTo
  | arcTo
  | close
deriving DecidableEq, Repr

/-- The kind of a path command. -/
def PathOp.kind {K : Type} : PathOp K → OpKind
  | .MoveTo _ _ => .moveTo
  | .LineTo _ _ => .lineTo
  | .ArcTo _ _ _ _ _ => .arcTo
  | .Close => .close

/-- The local type `ExtrudeVerts` of `DrawPolygon`. -/
structure ExtrudeVerts (K : Type) where
  offset : Vector K
  n : Vector K
deriving DecidableEq, Repr

/-- Go slice indexing `s[i]` with an `int` index; `none` is the run-time
panic of an index out of range. -/
def index {α : Type} (s : List α) (i : Int) : Option α :=
  if 0 ≤ i then s[i.toNat]? else none

section Polygon

variable {K : Type} [LinearOrderedField K]

/-- The constant `DrawPointLineScale`. -/
def DrawPointLineScale : K := 1

/-- The expression `v.Sub(u).ReversePerp().Normalize()` of lines 137-138: the
unit normal of the edge from `u` to `v`. -/
def edgeNormal (sqrt : K → K) (u v : Vector K) : Vector K :=
  ((v.Sub u).ReversePerp).Normalize sqrt

/-- Lines 137-141 of `DrawPolygon`: the value stored in `extrude[i]`, from the
three vertices `v0`, `v1`, `v2` read in lines 133-135. -/
def extrudeOf (sqrt : K → K) (v0 v1 v2 : Vector K) : ExtrudeVerts K :=
  let n1 := edgeNormal sqrt v0 v1
  let n2 := edgeNormal sqrt v1 v2
  let offset := (n1.Add n2).Mult (1 / (n1.Dot n2 + 1))
  ⟨offset, n2⟩

/-- The body of the first loop of `DrawPolygon` (lines 133-141): the value
stored in `extrude[i]`. -/
def extrudeVert (sqrt : K → K) (count : Int) (verts : List (Vector K)) (i : Int) :
    Option (ExtrudeVerts K) := do
  let v0 ← index verts ((i - 1 + count).tmod count)
  let v1 ← index verts i
  let v2 ← index verts ((i + 1).tmod count)
  pure (extrudeOf sqrt v0 v1 v2)

/-- The first loop of `DrawPolygon` (lines 132-142) with `todo` rounds left:
`for i < count { ...; extrude[i] = ...; i++ }`, the entries of `extrude` so far
in `acc`. -/
def extrudeLoop (sqrt : K → K) (count : Int) (verts : List (Vector K)) :
    (todo : Nat) → (i : Int) → List (ExtrudeVerts K) → Option (List (ExtrudeVerts K))
  | 0, _, acc => some acc
  | todo + 1, i, acc => do
    let e ← extrudeVert sqrt count verts i
    extrudeLoop sqrt count verts todo (i + 1) (acc ++ [e])

/-- Lines 130-142 of `DrawPolygon`: the slice `extrude`.  `make` panics on a
negative `count`. -/
def extrudeAll (sqrt : K → K) (count : Int) (verts : List (Vector K)) :
    Option (List (ExtrudeVerts K)) :=
  if count < 0 then none
  else extrudeLoop sqrt count verts count.toNat 0 []

/-- The amount `inset` of line 145. -/
def polyInset (radius : K) : K := -max 0 (1 / DrawPointLineScale - radius)

/-- The amount `outset` of line 146 (and `outset2` of line 147, the same expression). -/
def polyOutset (radius : K) : K := 1 / DrawPointLineScale + radius - polyInset radius

/-- The point `outer1` of line 163 for the vertices `vB` and its extrusion `eB`. -/
def outer1 (radius : K) (vB : Vector K) (eB : ExtrudeVerts K) : Vector K :=
  let innerB := vB.Add (eB.offset.Mult (polyInset radius))
  innerB.Add (eB.n.Mult (polyOutset radius))

/-- The point `outer0` of line 162. -/
def outer0 (radius : K) (vA : Vector K) (eA eB : ExtrudeVerts K) : Vector K :=
  let innerA := vA.Add (eA.offset.Mult (polyInset radius))
  innerA.Add (eB.n.Mult (polyOutset radius))

/-- Lines 153-187 of `DrawPolygon`: the commands one round of the second loop
appends to the path, from the values `verts[i]`, `verts[j]`, `extrude[i]`,
`extrude[j]` it reads. -/
def pairPath (radius : K) (vA vB : Vector K) (eA eB : ExtrudeVerts K) : List (PathOp K) :=
  let nA := eA.n
  let offsetA := eA.offset
  let inset := polyInset radius
  let outset := polyOutset radius
  let outset2 := polyOutset radius
  let innerA := vA.Add (offsetA.Mult inset)
  let o0 := outer0 radius vA eA eB
  let o1 := outer1 radius vB eB
  let outer2 := innerA.Add (offsetA.Mult outset)
  let outer3 := innerA.Add (offsetA.Mult outset2)
  let outer4 := innerA.Add (nA.Mult outset)
  let corner : PathOp K :=
    if radius != 0 then .ArcTo outer3.X outer3.Y outer4.X outer4.Y radius
    else .LineTo outer2.X outer2.Y
  [.LineTo o1.X o1.Y, .LineTo o0.X o0.Y, corner]

/-- The body of the second loop of `DrawPolygon` (lines 150-187) for the pair
`(i, j)`: the commands it appends to the path. -/
def pairOps (radius : K) (verts : List (Vector K)) (extrude : List (ExtrudeVerts K))
    (i j : Int) : Option (List (PathOp K)) := do
  let vA ← index verts i
  let vB ← index verts j
  let eA ← index extrude i
  let eB ← index extrude j
  pure (pairPath radius vA vB eA eB)

/-- The second loop of `DrawPolygon` (lines 149-191) with `todo` rounds left:
`for i < count { ...; j = i; i++ }`. -/
def polyLoop (radius : K) (verts : List (Vector K)) (extrude : List (ExtrudeVerts K)) :
    (todo : Nat) → (i j : Int) → List (PathOp K) → Option (List (PathOp K))
  | 0, _, _, path => some path
  | todo + 1, i, j, path => do
    let ops ← pairOps radius verts extrude i j
    polyLoop radius verts extrude todo (i + 1) i (path ++ ops)

/-- The method `Drawer.DrawPolygon` up to line 192: the path it hands to
`drawFill` and `drawOutline`, or `none` when it panics. -/
def DrawPolygon (sqrt : K → K) (count : Int) (verts : List (Vector K)) (radius : K) :
    Option (List (PathOp K)) := do
  let extrude ← extrudeAll sqrt count verts
  let path ← polyLoop radius verts extrude count.toNat 0 (count - 1) []
  pure (path ++ [.Close])

/-! ### The polygon read cyclically

Total versions of the reads of `DrawPolygon`, for stating what it computes on
a polygon given by all of `verts`. -/

/-- The vertex at position `k` of the polygon, counted cyclically. -/
def vertAt (verts : List (Vector K)) (k : Nat) : Vector K :=
  verts.getD (k % verts.length) ⟨0, 0⟩

/-- The position before `i` on the polygon, the `j` of the second loop. -/
def prevIdx (verts : List (Vector K)) (i : Nat) : Nat := (i + verts.length - 1) % verts.length

/-- The entry `extrude[k]` of a polygon given by all of `verts`. -/
def extrudeAt (sqrt : K → K) (verts : List (Vector K)) (k : Nat) : ExtrudeVerts K :=
  extrudeOf sqrt (vertAt verts (k + verts.length - 1)) (vertAt verts k) (vertAt verts (k + 1))

/-- The commands of the round `i` of the second loop, for a polygon given by
all of `verts`. -/
def roundPath (sqrt : K → K) (verts : List (Vector K)) (radius : K) (i : Nat) :
    List (PathOp K) :=
  pairPath radius (vertAt verts i) (vertAt verts (prevIdx verts i))
    (extrudeAt sqrt verts i) (extrudeAt sqrt verts (prevIdx verts i))

end Polygon

/-! ### Sample polygons -/

/-- The unit square, counter-clockwise. -/
def unitSquare : List (Vector ℝ) := [⟨0, 0⟩, ⟨1, 0⟩, ⟨1, 1⟩, ⟨0, 1⟩]

/-- The right triangle with the sides 4, 3 and 5, counter-clockwise. -/
def triangle345 : List (Vector ℝ) := [⟨0, 0⟩, ⟨4, 0⟩, ⟨4, 3⟩]

/-! ## The drag handler

Pointers are addresses: a body and a constraint carry the address `ref` they
were allocated at, and `==` on pointers compares addresses.  A point that may
be the undefined vector `{NaN, NaN}` is an `Option (Vector K)`; the vector
operations send an undefined argument to an undefined result. -/

/-- The type `ebiten.TouchID`, an `int`. -/
abbrev TouchID := Int

/-- The filter type `cp.ShapeFilter`. -/
structure ShapeFilter where
  Group : Nat
  Categories : Nat
  Mask : Nat
deriving DecidableEq, Repr

/-- The constant `GRABBABLE_MASK_BIT`. -/
def GRABBABLE_MASK_BIT : Nat := 1 <<< 31

/-- The library constant `cp.NO_GROUP`. -/
def NO_GROUP : Nat := 0

/-- The variable `grabFilter`. -/
def grabFilter : ShapeFilter :=
  { Group := NO_GROUP, Categories := GRABBABLE_MASK_BIT, Mask := GRABBABLE_MASK_BIT }

/-- A `cp.Body` behind a pointer: its address, mass, position and velocity. -/
structure Body (K : Type) where
  ref : Nat
  m : K
  p : Option (Vector K)
  v : Option (Vector K)
deriving DecidableEq, Repr

/-- A `cp.Shape`: the part the handler reads, its body. -/
structure Shape (K : Type) where
  body : Body K
deriving DecidableEq, Repr

/-- The result `cp.PointQueryInfo` of a nearest-point query; `Shape` is `none`
when nothing was found. -/
structure PointQueryInfo (K : Type) where
  Shape : Option (Shape K)
  Point : Vector K
  Distance : K
  Gradient : Vector K
deriving DecidableEq, Repr

/-- A `cp.Constraint` holding a pivot joint, behind a pointer: its address, the
addresses of its two bodies (`none` for a nil body), the two anchors and the
two settings the handler changes. -/
structure Constraint (K : Type) where
  ref : Nat
  a : Option Nat
  b : Option Nat
  anchorA : Option (Vector K)
  anchorB : Option (Vector K)
  maxForce : K
  errorBias : K
deriving DecidableEq, Repr

/-- A `cp.Space`: its constraint list, and its shapes as far as the handler
sees them, through the nearest-point query (point, radius, filter). -/
structure Space (K : Type) where
  constraints : List (Constraint K)
  PointQueryNearest : Option (Vector K) → K → ShapeFilter → PointQueryInfo K

/-- The type `mouseEventHandler`; a nil pointer is `none`. -/
structure mouseEventHandler (K : Type) where
  mouseJoint : Option (Constraint K)
  mouseBody : Option (Body K)
  touchIDs : List TouchID
deriving DecidableEq, Repr

/-- The state the handler works on: itself, the space, and the allocator
(`next` is the first address not handed out yet). -/
structure World (K : Type) where
  h : mouseEventHandler K
  space : Space K
  next : Nat

/-- The fields of `Drawer` that `handleMouseEvent` reads. -/
structure Drawer (K : Type) where
  ScreenWidth : Int
  ScreenHeight : Int
  FlipYAxis : Bool
  GeoM : GeoM K
  Camera : Camera K
deriving DecidableEq, Repr

/-- What the input library reports in one update: `ebiten.TouchPosition`,
`inpututil.IsTouchJustReleased`, the identities
`inpututil.AppendJustPressedTouchIDs` appends, `ebiten.CursorPosition`, and
`inpututil.IsMouseButtonJustPressed` / `IsMouseButtonJustReleased` for the
left button. -/
structure Input where
  TouchPosition : TouchID → Int × Int
  IsTouchJustReleased : TouchID → Bool
  JustPressedTouchIDs : List TouchID
  CursorPosition : Int × Int
  IsMouseButtonJustPressed : Bool
  IsMouseButtonJustReleased : Bool

section Handler

variable {K : Type} [LinearOrderedField K]

/-- The library constant `cp.INFINITY`, which is `math.MaxFloat64`. -/
def INFINITY : K := 2 ^ 1024 - 2 ^ 971

/-- Library constructor `cp.NewKinematicBody`, allocated at `ref`: a body of
infinite mass at rest at the origin. -/
def NewKinematicBody (ref : Nat) : Body K :=
  { ref := ref, m := INFINITY, p := some ⟨0, 0⟩, v := some ⟨0, 0⟩ }

/-- Library method `Body.SetVelocityVector`. -/
def Body.SetVelocityVector (body : Body K) (v : Option (Vector K)) : Body K :=
  { body with v := v }

/-- Library method `Body.SetPosition`. -/
def Body.SetPosition (body : Body K) (p : Option (Vector K)) : Body K :=
  { body with p := p }

/-- Library constructor `cp.NewPivotJoint2`, allocated at `ref`, with the
library defaults for the two settings. -/
def NewPivotJoint2 (ref : Nat) (a b : Option (Body K)) (anchorA anchorB : Option (Vector K)) :
    Constraint K :=
  { ref := ref, a := a.map Body.ref, b := b.map Body.ref, anchorA := anchorA,
    anchorB := anchorB, maxForce := INFINITY, errorBias := (1 - 1 / 10) ^ 60 }

/-- Library method `Constraint.SetMaxForce`. -/
def Constraint.SetMaxForce (c : Constraint K) (f : K) : Constraint K :=
  { c with maxForce := f }

/-- Library method `Constraint.SetErrorBias`. -/
def Constraint.SetErrorBias (c : Constraint K) (e : K) : Constraint K :=
  { c with errorBias := e }

/-- Library method `Space.ContainsConstraint`: is this pointer in the space. -/
def Space.ContainsConstraint (space : Space K) (c : Constraint K) : Bool :=
  space.constraints.any fun c' => c'.ref == c.ref

/-- Library method `Space.AddConstraint`: appends the pointer to the
constraint list.  It panics (`none`) when the constraint is in the space
already or one of its bodies is nil. -/
def Space.AddConstraint (space : Space K) (c : Constraint K) : Option (Space K) :=
  if space.ContainsConstraint c then none
  else if c.a.isNone || c.b.isNone then none
  else some { space with constraints := space.constraints ++ [c] }

/-- Library method `Space.RemoveConstraint`: deletes the first entry of the
constraint list that is this pointer.  It panics (`none`) when the space does
not contain the constraint. -/
def Space.RemoveConstraint (space : Space K) (c : Constraint K) : Option (Space K) :=
  if space.ContainsConstraint c then
    some { space with constraints := space.constraints.eraseP fun c' => c'.ref == c.ref }
  else none

/-- The method `mouseEventHandler.onMouseUp`. -/
def onMouseUp (w : World K) : Option (World K) :=
  match w.h.mouseJoint with
  | none => some w
  | some joint => do
    let space ← w.space.RemoveConstraint joint
    pure { w with space := space, h := { w.h with mouseJoint := none } }

/-- The method `mouseEventHandler.onMouseDown`.  The library method
`Body.WorldToLocal` is the parameter `WorldToLocal`. -/
def onMouseDown (WorldToLocal : Body K → Vector K → Vector K) (w : World K)
    (cursorPosition : Option (Vector K)) : Option (World K) :=
  let radius : K := 5
  let info := w.space.PointQueryNearest cursorPosition radius grabFilter
  match info.Shape with
  | none => some w
  | some shape =>
    if shape.body.m < INFINITY then do
      let nearest : Option (Vector K) :=
        if info.Distance > 0 then some info.Point else cursorPosition
      let body := shape.body
      let joint := NewPivotJoint2 w.next w.h.mouseBody (some body) (some ⟨0, 0⟩)
        (nearest.map (WorldToLocal body))
      let joint := joint.SetMaxForce 50000
      let joint := joint.SetErrorBias ((1 - 15 / 100) ^ 60)
      let space ← w.space.AddConstraint joint
      pure { h := { w.h with mouseJoint := some joint }, space := space, next := w.next + 1 }
    else some w

/-- The first loop of `handleMouseEvent` (lines 337-344) over the held touch
identities: the last position read, and whether the loop hit a release. -/
def touchLoop (inp : Input) : List TouchID → Int × Int → (Int × Int) × Bool
  | [], xy => (xy, false)
  | id :: ids, _ =>
    let xy := inp.TouchPosition id
    if (xy.1 == 0 && xy.2 == 0) || inp.IsTouchJustReleased id then (xy, true)
    else touchLoop inp ids xy

/-- The method `mouseEventHandler.handleMouseEvent`: one interaction update. -/
def handleMouseEvent (WorldToLocal : Body K → Vector K → Vector K) (inp : Input)
    (d : Drawer K) (w : World K) (screenWidth screenHeight : Int) : Option (World K) := do
  -- lines 330-332
  let w : World K :=
    match w.h.mouseBody with
    | none => { w with h := { w.h with mouseBody := some (NewKinematicBody w.next) },
                       next := w.next + 1 }
    | some _ => w
  -- lines 334-344
  let (xy, released) := touchLoop inp w.h.touchIDs (0, 0)
  let w ← if released then (onMouseUp w).map fun w' => { w' with h := { w'.h with touchIDs := [] } }
    else some w
  -- lines 345-352
  let (isJuestTouched, w, xy) :=
    match inp.JustPressedTouchIDs with
    | [] => (false, w, xy)
    | id :: _ => (true, { w with h := { w.h with touchIDs := [id] } }, inp.TouchPosition id)
  -- lines 354-356
  let xy := if w.h.touchIDs.length == 0 then inp.CursorPosition else xy
  -- lines 358-359
  let cursorPosition : Vector K := ⟨(xy.1 : K), (xy.2 : K)⟩
  let cursorPosition := ScreenToWorld cursorPosition d.GeoM d.Camera d.FlipYAxis
    screenWidth screenHeight
  -- lines 361-368
  let mouseBody ← w.h.mouseBody
  let mouseBody :=
    if isJuestTouched then
      (mouseBody.SetVelocityVector (some ⟨0, 0⟩)).SetPosition cursorPosition
    else
      let newPoint := do
        let p ← mouseBody.p
        let c ← cursorPosition
        pure (p.Lerp c (25 / 100))
      let vel := do
        let np ← newPoint
        let p ← mouseBody.p
        pure ((np.Sub p).Mult 60)
      (mouseBody.SetVelocityVector vel).SetPosition newPoint
  let w := { w with h := { w.h with mouseBody := some mouseBody } }
  -- lines 370-375
  let w ← if inp.IsMouseButtonJustPressed || isJuestTouched then
      onMouseDown WorldToLocal w cursorPosition
    else some w
  if inp.IsMouseButtonJustReleased then onMouseUp w else some w

/-- The method `Drawer.HandleMouseEvent`. -/
def HandleMouseEvent (WorldToLocal : Body K → Vector K → Vector K) (inp : Input)
    (d : Drawer K) (w : World K) : Option (World K) :=
  handleMouseEvent WorldToLocal inp d w d.ScreenWidth d.ScreenHeight

end Handler

/-! ### The parts of an update

The steps of `onMouseDown` and `handleMouseEvent` under names of their own,
for stating what an update does. -/

section HandlerParts

variable {K : Type} [LinearOrderedField K]

/-- Lines 385-395 of `onMouseDown`: the joint a press creates on the body
`body`, from the query result `info`. -/
def pressJoint (WorldToLocal : Body K → Vector K → Vector K) (w : World K)
    (cursorPosition : Option (Vector K)) (info : PointQueryInfo K) (body : Body K) :
    Constraint K :=
  let nearest : Option (Vector K) :=
    if info.Distance > 0 then some info.Point else cursorPosition
  let joint := NewPivotJoint2 w.next w.h.mouseBody (some body) (some ⟨0, 0⟩)
    (nearest.map (WorldToLocal body))
  let joint := joint.SetMaxForce 50000
  joint.SetErrorBias ((1 - 15 / 100) ^ 60)

/-- Lines 330-332 of `handleMouseEvent`: the anchor body is created when the
handler has none. -/
def ensureBody (w : World K) : World K :=
  match w.h.mouseBody with
  | none => { w with h := { w.h with mouseBody := some (NewKinematicBody w.next) },
                     next := w.next + 1 }
  | some _ => w

/-- The flag `isJuestTouched` of `handleMouseEvent`: a touch is newly pressed. -/
def isJuestTouched (inp : Input) : Bool :=
  match inp.JustPressedTouchIDs with
  | [] => false
  | _ :: _ => true

/-- The screen position `(x, y)` that lines 334-356 of `handleMouseEvent`
settle on, for a handler that tracks the touches `held`: the position of the
first newly pressed touch; else the cursor when no touch is tracked any more;
else the last position the first loop read. -/
def pointerScreen (inp : Input) (held : List TouchID) : Int × Int :=
  let r := touchLoop inp held (0, 0)
  match inp.JustPressedTouchIDs with
  | id :: _ => inp.TouchPosition id
  | [] => if (if r.2 then [] else held).length == 0 then inp.CursorPosition else r.1

/-- The value `cursorPosition` of lines 358-359: the pointer in world space. -/
def pointerWorld (inp : Input) (d : Drawer K) (held : List TouchID)
    (screenWidth screenHeight : Int) : Option (Vector K) :=
  ScreenToWorld ⟨((pointerScreen inp held).1 : K), ((pointerScreen inp held).2 : K)⟩
    d.GeoM d.Camera d.FlipYAxis screenWidth screenHeight

/-- Lines 361-368 of `handleMouseEvent`: the anchor body after it is moved. -/
def moveAnchor (mouseBody : Body K) (cursorPosition : Option (Vector K)) (touched : Bool) :
    Body K :=
  if touched then
    (mouseBody.SetVelocityVector (some ⟨0, 0⟩)).SetPosition cursorPosition
  else
    let newPoint := do
      let p ← mouseBody.p
      let c ← cursorPosition
      pure (p.Lerp c (25 / 100))
    let vel := do
      let np ← newPoint
      let p ← mouseBody.p
      pure ((np.Sub p).Mult 60)
    (mouseBody.SetVelocityVector vel).SetPosition newPoint

/-- Lines 330-368 of `handleMouseEvent`: the state in which the press and the
release of lines 370-375 are handled. -/
def movePointer (inp : Input) (d : Drawer K) (w : World K) (screenWidth screenHeight : Int) :
    Option (World K) := do
  let w0 := ensureBody w
  let w1 ← if (touchLoop inp w0.h.touchIDs (0, 0)).2 then
      (onMouseUp w0).map fun w' => { w' with h := { w'.h with touchIDs := [] } }
    else some w0
  let ids := match inp.JustPressedTouchIDs with
    | [] => w1.h.touchIDs
    | id :: _ => [id]
  let mouseBody ← w1.h.mouseBody
  pure { w1 with h := { w1.h with
    touchIDs := ids
    mouseBody := some (moveAnchor mouseBody
      (pointerWorld inp d w.h.touchIDs screenWidth screenHeight) (isJuestTouched inp)) } }

/-- Lines 370-375 of `handleMouseEvent`: the press and the release. -/
def pressRelease (WorldToLocal : Body K → Vector K → Vector K) (inp : Input) (w : World K)
    (cursorPosition : Option (Vector K)) : Option (World K) := do
  let w ← if inp.IsMouseButtonJustPressed || isJuestTouched inp then
      onMouseDown WorldToLocal w cursorPosition
    else some w
  if inp.IsMouseButtonJustReleased then onMouseUp w else some w

/-- The anchor body an update starts from: the one the handler has, or the new
one of lines 330-332. -/
def anchorBefore (w : World K) : Body K :=
  match w.h.mouseBody with
  | none => NewKinematicBody w.next
  | some mouseBody => mouseBody

/-- A state in which the allocator and the handler are sound: every constraint
of the space sits at an address that was handed out, and a joint the handler
holds is in the space. -/
def World.Sound (w : World K) : Prop :=
  (∀ c ∈ w.space.constraints, c.ref < w.next) ∧
  (∀ j, w.h.mouseJoint = some j → j ∈ w.space.constraints)

/-- One frame of a run: what the input library reports, the drawer, and the
shapes of the space at that time (through the nearest-point query). -/
structure Frame (K : Type) where
  inp : Input
  d : Drawer K
  query : Option (Vector K) → K → ShapeFilter → PointQueryInfo K

/-- A run of the handler on one space: `Drawer.HandleMouseEvent` once per
frame; nobody else touches the constraint list. -/
def runFrames (WorldToLocal : Body K → Vector K → Vector K) :
    List (Frame K) → World K → Option (World K)
  | [], w => some w
  | f :: fs, w => do
    let w' ← HandleMouseEvent WorldToLocal f.inp f.d
      { w with space := { w.space with PointQueryNearest := f.query } }
    runFrames WorldToLocal fs w'

end HandlerParts

/-! ### A sample scene

The scenario of the spec: a 800x600 screen, the identity camera matrix, no
camera offset, no flip, and one grabbable shape of finite mass around the
world point `(400, 0)`. -/

/-- The drawer of the sample scene. -/
def sampleDrawer : Drawer ℚ :=
  { ScreenWidth := 800, ScreenHeight := 600, FlipYAxis := false, GeoM := GeoM.zero,
    Camera := ⟨⟨0, 0⟩⟩ }

/-- The body of the sample scene: mass 1, at rest at `(400, 0)`, allocated at address 1. -/
def sampleBody : Body ℚ := { ref := 1, m := 1, p := some ⟨400, 0⟩, v := some ⟨0, 0⟩ }

/-- The nearest-point query of the sample scene: the shape of `sampleBody` is
found from every defined point whose two coordinates are within `radius` of
`(400, 0)`, as a hit inside the shape; nothing is found elsewhere. -/
def sampleQuery (point : Option (Vector ℚ)) (radius : ℚ) (_filter : ShapeFilter) :
    PointQueryInfo ℚ :=
  match point with
  | some q =>
    if |q.X - 400| ≤ radius ∧ |q.Y - 0| ≤ radius then
      { Shape := some ⟨sampleBody⟩, Point := q, Distance := 0, Gradient := ⟨0, 0⟩ }
    else { Shape := none, Point := ⟨0, 0⟩, Distance := radius, Gradient := ⟨0, 0⟩ }
  | none => { Shape := none, Point := ⟨0, 0⟩, Distance := radius, Gradient := ⟨0, 0⟩ }

/-- The world of the sample scene at the start: no constraint in the space,
the handler in its zero value, the addresses 0 and 1 in use. -/
def sampleWorld : World ℚ :=
  { h := { mouseJoint := none, mouseBody := none, touchIDs := [] },
    space := { constraints := [], PointQueryNearest := sampleQuery },
    next := 2 }

/-- The `Body.WorldToLocal` of the sample scene: bodies are not rotated, so the
local image of a point is its offset from the position of the body. -/
def sampleToLocal (body : Body ℚ) (point : Vector ℚ) : Vector ℚ :=
  match body.p with
  | some p => point.Sub p
  | none => point

/-- An update in which the touch `id` is newly pressed; every touch is down at
the screen point `(800, 300)`, none is released, the mouse button is idle. -/
def touchPressed (id : TouchID) : Input :=
  { TouchPosition := fun _ => (800, 300), IsTouchJustReleased := fun _ => false,
    JustPressedTouchIDs := [id], CursorPosition := (0, 0),
    IsMouseButtonJustPressed := false, IsMouseButtonJustReleased := false }

/-- An update in which the touch `id` is released and nothing is pressed. -/
def touchReleased (id : TouchID) : Input :=
  { TouchPosition := fun _ => (800, 300), IsTouchJustReleased := fun t => t == id,
    JustPressedTouchIDs := [], CursorPosition := (0, 0),
    IsMouseButtonJustPressed := false, IsMouseButtonJustReleased := false }

/-- An update in which nothing is pressed or released and no touch is down;
the cursor is at the screen point `(800, 300)`. -/
def idleInput : Input :=
  { TouchPosition := fun _ => (0, 0), IsTouchJustReleased := fun _ => false,
    JustPressedTouchIDs := [], CursorPosition := (800, 300),
    IsMouseButtonJustPressed := false, IsMouseButtonJustReleased := false }

/-- An update in which the left mouse button is newly pressed with the cursor
at the screen point `(800, 300)`; no touch is down. -/
def mousePressed : Input :=
  { TouchPosition := fun _ => (0, 0), IsTouchJustReleased := fun _ => false,
    JustPressedTouchIDs := [], CursorPosition := (800, 300),
    IsMouseButtonJustPressed := true, IsMouseButtonJustReleased := false }

/-- The drawer of the sample scene with a camera matrix that scales by zero,
which is not invertible. -/
def singularDrawer : Drawer ℚ :=
  { sampleDrawer with GeoM := GeoM.zero.Scale 0 0 }

/-! ## ScreenToWorld in float64 arithmetic

What `ScreenToWorld` returns as a `float64` computation, where not-a-number
can arise: the arithmetic of IEEE 754 with its infinities and NaN.
Rounding is left out: a result within the range of `float64` is kept as the
exact number, and a result beyond it is the infinity that round-to-nearest
gives.  The two zeros are not told apart. -/

/-- A `float64` value: a number, an infinity (`negative` is its sign), or NaN. -/
inductive F64 where
  | fin (q : ℚ)
  | inf (negative : Bool)
  | nan
deriving DecidableEq, Repr

namespace F64

/-- The magnitude from which on a result is rounded to an infinity:
`2^1024 - 2^970`, half a unit in the last place above `math.MaxFloat64`. -/
def overflowAt : ℚ := 2 ^ 1024 - 2 ^ 970

/-- The `float64` of an exact result. -/
def ofRat (q : ℚ) : F64 :=
  if overflowAt ≤ q then inf false
  else if q ≤ -overflowAt then inf true
  else fin q

/-- The conversion `float64(n)` of an `int`. -/
def ofInt (n : Int) : F64 := ofRat n

/-- The negation `-x`. -/
def neg : F64 → F64
  | fin q => fin (-q)
  | inf s => inf (!s)
  | nan => nan

/-- The sum `x + y`: infinities of opposite sign add up to NaN. -/
def add : F64 → F64 → F64
  | fin a, fin b => ofRat (a + b)
  | fin _, inf t => inf t
  | inf s, fin _ => inf s
  | inf s, inf t => if s = t then inf s else nan
  | nan, _ => nan
  | _, nan => nan

/-- The difference `x - y`. -/
def sub (x y : F64) : F64 := add x (neg y)

/-- The product `x * y`: zero times an infinity is NaN. -/
def mul : F64 → F64 → F64
  | fin a, fin b => ofRat (a * b)
  | fin a, inf t => if a = 0 then nan else inf (xor (decide (a < 0)) t)
  | inf s, fin b => if b = 0 then nan else inf (xor s (decide (b < 0)))
  | inf s, inf t => inf (xor s t)
  | nan, _ => nan
  | _, nan => nan

/-- The quotient `x / y`: a number by an infinity is zero, an infinity by an
infinity is NaN, zero by zero is NaN.  (A nonzero number or an infinity by zero is
the infinity of the sign of the dividend, the zero read as `+0`; the code
modelled divides by the determinant only after it has compared it with zero.) -/
def div : F64 → F64 → F64
  | fin a, fin b =>
    if b = 0 then (if a = 0 then nan else inf (decide (a < 0))) else ofRat (a / b)
  | fin _, inf _ => fin 0
  | inf s, fin b => inf (xor s (decide (b < 0)))
  | inf _, inf _ => nan
  | nan, _ => nan
  | _, nan => nan

/-- The comparison `x != 0`: true for the infinities and for NaN. -/
def ne0 : F64 → Bool
  | fin q => q != 0
  | inf _ => true
  | nan => true

/-- The predicate `math.IsNaN`. -/
def isNaN : F64 → Bool
  | nan => true
  | _ => false

instance : Add F64 := ⟨add⟩

instance : Sub F64 := ⟨sub⟩

instance : Mul F64 := ⟨mul⟩

instance : Div F64 := ⟨div⟩

instance : Neg F64 := ⟨neg⟩

instance (n : Nat) : OfNat F64 n := ⟨fin n⟩

end F64

namespace IEEE

/-- Library method `GeoM.Apply` in `float64` arithmetic. -/
def Apply (g : GeoM F64) (x y : F64) : F64 × F64 :=
  ((g.a_1 + 1) * x + g.b * y + g.tx, g.c * x + (g.d_1 + 1) * y + g.ty)

/-- Library method `GeoM.Scale` in `float64` arithmetic. -/
def Scale (g : GeoM F64) (x y : F64) : GeoM F64 :=
  { a_1 := (g.a_1 + 1) * x - 1
    b := g.b * x
    c := g.c * y
    d_1 := (g.d_1 + 1) * y - 1
    tx := g.tx * x
    ty := g.ty * y }

/-- Library method `GeoM.Translate` in `float64` arithmetic. -/
def Translate (g : GeoM F64) (tx ty : F64) : GeoM F64 :=
  { g with tx := g.tx + tx, ty := g.ty + ty }

/-- Library method `GeoM.Concat` in `float64` arithmetic. -/
def Concat (g other : GeoM F64) : GeoM F64 :=
  { a_1 := (other.a_1 + 1) * (g.a_1 + 1) + other.b * g.c - 1
    b := (other.a_1 + 1) * g.b + other.b * (g.d_1 + 1)
    c := other.c * (g.a_1 + 1) + (other.d_1 + 1) * g.c
    d_1 := other.c * g.b + (other.d_1 + 1) * (g.d_1 + 1) - 1
    tx := (other.a_1 + 1) * g.tx + other.b * g.ty + other.tx
    ty := other.c * g.tx + (other.d_1 + 1) * g.ty + other.ty }

/-- Library helper `GeoM.det2x2` in `float64` arithmetic. -/
def det2x2 (g : GeoM F64) : F64 := (g.a_1 + 1) * (g.d_1 + 1) - g.b * g.c

/-- Library method `GeoM.IsInvertible` in `float64` arithmetic: `det2x2() != 0`. -/
def IsInvertible (g : GeoM F64) : Bool := (det2x2 g).ne0

/-- Library method `GeoM.Invert` in `float64` arithmetic. -/
def Invert (g : GeoM F64) : GeoM F64 :=
  let det := det2x2 g
  { a_1 := (g.d_1 + 1) / det - 1
    b := -g.b / det
    c := -g.c / det
    d_1 := (g.a_1 + 1) / det - 1
    tx := (-(g.d_1 + 1) * g.tx + g.b * g.ty) / det
    ty := (g.c * g.tx + -(g.a_1 + 1) * g.ty) / det }

/-- The function `ScreenToWorld` in `float64` arithmetic; the else branch
returns the vector `{NaN, NaN}` as such. -/
def ScreenToWorld (screenPoint : Vector F64) (cameraGeoM : GeoM F64) (camera : Camera F64)
    (flipYAxis : Bool) (screenWidth screenHeight : Int) : Vector F64 :=
  if IsInvertible cameraGeoM then
    let cameraGeoM := Invert cameraGeoM
    let f : F64 := if flipYAxis then 1 else -1
    let matrix : GeoM F64 := ⟨0, 0, 0, 0, 0, 0⟩
    let matrix := Translate matrix (-F64.ofInt screenWidth / 2) (-F64.ofInt screenHeight / 2)
    let matrix := Translate matrix camera.Offset.X (camera.Offset.Y * f)
    let matrix := Scale matrix 1 f
    let matrix := Concat matrix cameraGeoM
    let w := Apply matrix screenPoint.X screenPoint.Y
    ⟨w.1, w.2⟩
  else
    ⟨F64.nan, F64.nan⟩

/-- A camera matrix whose entries are all `float64` numbers: the matrix
`[[1, 2^600], [-2^600, 1]]` with the translation `(2^600, 2^600)`.  Its
determinant is `1 + 2^1200`. -/
def hugeGeoM : GeoM F64 :=
  { a_1 := 0, b := .fin (2 ^ 600), c := .fin (-2 ^ 600), d_1 := 0,
    tx := .fin (2 ^ 600), ty := .fin (2 ^ 600) }

end IEEE

/-! # Theorems -/

/-! ## The transform pipeline -/

section TransformTheorems

variable {K : Type} [LinearOrderedField K]

theorem GeoM.isInvertible_iff (g : GeoM K) : g.IsInvertible = true ↔ g.det2x2 ≠ 0 := by
  simp [GeoM.IsInvertible]

/-- The destination of every vertex `applyMatrixToVertices` returns is the
`worldToScreen` image of the destination it had. -/
theorem applyMatrixToVertices_dst (vs : List (Vertex K)) (matrix : GeoM K) (camera : Camera K)
    (flipYAxis : Bool) (W H : Int) (r g b a : K) :
    (applyMatrixToVertices vs matrix camera flipYAxis W H r g b a).map
        (fun v => (⟨v.DstX, v.DstY⟩ : Vector K))
      = vs.map fun v => worldToScreen ⟨v.DstX, v.DstY⟩ matrix camera flipYAxis W H := by
  simp [applyMatrixToVertices, worldToScreen, List.map_map, Function.comp_def]

/-- C1: for an invertible matrix, any screen size, camera offset and flip
setting, `ScreenToWorld` of the forward image of a point `p` is `p`, exactly. -/
theorem ScreenToWorld_worldToScreen (M : GeoM K) (camera : Camera K) (flipYAxis : Bool)
    (W H : Int) (p : Vector K) (hM : M.IsInvertible = true) :
    ScreenToWorld (worldToScreen p M camera flipYAxis W H) M camera flipYAxis W H = some p := by
  have hdet : M.det2x2 ≠ 0 := (GeoM.isInvertible_iff M).1 hM
  have hdet' : (M.a_1 + 1) * (M.d_1 + 1) - M.b * M.c ≠ 0 := hdet
  obtain ⟨px, py⟩ := p
  simp only [ScreenToWorld, hM, if_true, Option.some.injEq, Vector.mk.injEq]
  cases flipYAxis <;>
    simp only [worldToScreen, forwardMatrix, flipFactor, GeoM.Apply, GeoM.Scale, GeoM.Translate,
      GeoM.Concat, GeoM.Invert, GeoM.zero, GeoM.det2x2, if_true, if_false] <;>
    constructor <;> field_simp <;> ring

/-- Witness of C1: a shearing, scaling and moving camera matrix on a 800x600
screen with a camera offset. -/
theorem ScreenToWorld_worldToScreen_witness :
    (⟨1, 2, 3, 4, 5, 6⟩ : GeoM ℚ).IsInvertible = true ∧
    ScreenToWorld (worldToScreen (⟨5, 7⟩ : Vector ℚ) ⟨1, 2, 3, 4, 5, 6⟩ ⟨⟨3, 9⟩⟩ false 800 600)
      ⟨1, 2, 3, 4, 5, 6⟩ ⟨⟨3, 9⟩⟩ false 800 600 = some ⟨5, 7⟩ :=
  ⟨by simp [GeoM.IsInvertible, GeoM.det2x2]; norm_num,
   ScreenToWorld_worldToScreen _ _ _ _ _ _ (by simp [GeoM.IsInvertible, GeoM.det2x2]; norm_num)⟩

/-- C3, as the claim states it, fails: on a 800x600 screen with the identity
matrix and no camera offset, the world point `(0, 1)` does not go to
`(0 + 400, 1 + 300)` with `FlipYAxis = false`, and does not go to
`(0 + 400, -1 + 300)` with `FlipYAxis = true`. -/
theorem worldToScreen_flip_counterexample :
    worldToScreen (⟨0, 1⟩ : Vector ℚ) GeoM.zero ⟨⟨0, 0⟩⟩ false 800 600
        ≠ ⟨0 + ((800 : Int) : ℚ) / 2, 1 + ((600 : Int) : ℚ) / 2⟩ ∧
    worldToScreen (⟨0, 1⟩ : Vector ℚ) GeoM.zero ⟨⟨0, 0⟩⟩ true 800 600
        ≠ ⟨0 + ((800 : Int) : ℚ) / 2, -1 + ((600 : Int) : ℚ) / 2⟩ := by
  constructor <;>
    simp [worldToScreen, forwardMatrix, flipFactor, GeoM.Apply, GeoM.Scale, GeoM.Translate,
      GeoM.zero] <;> norm_num

/-- C3, amended: the forward mapping scales the Y axis by -1 exactly when
`FlipYAxis` is disabled.  With the identity matrix and zero camera offset a
world point `(x, y)` goes to `(x + W/2, -y + H/2)` with `FlipYAxis = false` and
to `(x + W/2, y + H/2)` with `FlipYAxis = true`. -/
theorem worldToScreen_flip (x y : K) (W H : Int) :
    worldToScreen (⟨x, y⟩ : Vector K) GeoM.zero ⟨⟨0, 0⟩⟩ false W H
        = ⟨x + (W : K) / 2, -y + (H : K) / 2⟩ ∧
    worldToScreen (⟨x, y⟩ : Vector K) GeoM.zero ⟨⟨0, 0⟩⟩ true W H
        = ⟨x + (W : K) / 2, y + (H : K) / 2⟩ ∧
    (flipFactor false : K) = -1 ∧ (flipFactor true : K) = 1 := by
  simp [worldToScreen, forwardMatrix, flipFactor, GeoM.Apply, GeoM.Scale, GeoM.Translate,
    GeoM.zero]

/-- C4: with the identity matrix, zero camera offset and flip disabled, the
world origin goes to the screen centre `(W/2, H/2)` and the screen point
`(W, H/2)` comes back as the world point `(W/2, 0)`; on a 800x600 screen, world
`(0, 0)` goes to screen `(400, 300)` and screen `(800, 300)` to world `(400, 0)`. -/
theorem screen_centre (W H : Int) :
    worldToScreen (⟨0, 0⟩ : Vector K) GeoM.zero ⟨⟨0, 0⟩⟩ false W H
        = ⟨(W : K) / 2, (H : K) / 2⟩ ∧
    ScreenToWorld (⟨(W : K), (H : K) / 2⟩ : Vector K) GeoM.zero ⟨⟨0, 0⟩⟩ false W H
        = some ⟨(W : K) / 2, 0⟩ ∧
    worldToScreen (⟨0, 0⟩ : Vector K) GeoM.zero ⟨⟨0, 0⟩⟩ false 800 600 = ⟨400, 300⟩ ∧
    ScreenToWorld (⟨800, 300⟩ : Vector K) GeoM.zero ⟨⟨0, 0⟩⟩ false 800 600 = some ⟨400, 0⟩ := by
  refine ⟨?_, ?_, ?_, ?_⟩
  · simp [worldToScreen, forwardMatrix, flipFactor, GeoM.Apply, GeoM.Scale, GeoM.Translate,
      GeoM.zero]
  · simp [ScreenToWorld, GeoM.IsInvertible, GeoM.det2x2, flipFactor, GeoM.Apply, GeoM.Scale,
      GeoM.Translate, GeoM.Concat, GeoM.Invert, GeoM.zero]
    constructor <;> ring
  · simp [worldToScreen, forwardMatrix, flipFactor, GeoM.Apply, GeoM.Scale, GeoM.Translate,
      GeoM.zero]
    norm_num
  · simp [ScreenToWorld, GeoM.IsInvertible, GeoM.det2x2, flipFactor, GeoM.Apply, GeoM.Scale,
      GeoM.Translate, GeoM.Concat, GeoM.Invert, GeoM.zero]
    norm_num

end TransformTheorems

/-! ## ScreenToWorld and the undefined sentinel -/

section FloatLemmas

theorem F64.add_eq (x y : F64) : x + y = F64.add x y := rfl

theorem F64.sub_eq (x y : F64) : x - y = F64.add x (F64.neg y) := rfl

theorem F64.mul_eq (x y : F64) : x * y = F64.mul x y := rfl

theorem F64.div_eq (x y : F64) : x / y = F64.div x y := rfl

theorem F64.neg_eq (x : F64) : -x = F64.neg x := rfl

theorem F64.zero_eq : (0 : F64) = F64.fin 0 := by
  show F64.fin ((0 : Nat) : ℚ) = F64.fin 0
  rw [Nat.cast_zero]

theorem F64.one_eq : (1 : F64) = F64.fin 1 := by
  show F64.fin ((1 : Nat) : ℚ) = F64.fin 1
  rw [Nat.cast_one]

theorem F64.two_eq : (2 : F64) = F64.fin 2 := by
  show F64.fin ((2 : Nat) : ℚ) = F64.fin 2
  norm_num

theorem IEEE.hugeGeoM_det : IEEE.det2x2 IEEE.hugeGeoM = F64.inf false := by
  simp only [IEEE.det2x2, IEEE.hugeGeoM, F64.add_eq, F64.sub_eq, F64.mul_eq, F64.zero_eq,
    F64.one_eq, F64.add, F64.mul, F64.neg, F64.ofRat, F64.overflowAt]
  norm_num

theorem IEEE.hugeGeoM_invertible : IEEE.IsInvertible IEEE.hugeGeoM = true := by
  rw [IEEE.IsInvertible, IEEE.hugeGeoM_det]
  rfl

theorem IEEE.hugeGeoM_inverse :
    IEEE.Invert IEEE.hugeGeoM
      = { a_1 := .fin (-1), b := .fin 0, c := .fin 0, d_1 := .fin (-1),
          tx := .nan, ty := .nan } := by
  rw [IEEE.Invert, IEEE.hugeGeoM_det]
  simp only [IEEE.hugeGeoM, F64.add_eq, F64.sub_eq, F64.mul_eq, F64.div_eq, F64.neg_eq,
    F64.zero_eq, F64.one_eq, F64.add, F64.mul, F64.div, F64.neg, F64.ofRat, F64.overflowAt]
  norm_num

end FloatLemmas

section FloatClaims

variable {K : Type} [LinearOrderedField K]

theorem GeoM.apply_concat (g other : GeoM K) (x y : K) :
    (g.Concat other).Apply x y = other.Apply (g.Apply x y).1 (g.Apply x y).2 := by
  simp only [GeoM.Concat, GeoM.Apply, Prod.mk.injEq]
  constructor <;> ring

theorem GeoM.apply_invert (M : GeoM K) (h : M.det2x2 ≠ 0) (x y : K) :
    M.Apply (M.Invert.Apply x y).1 (M.Invert.Apply x y).2 = (x, y) := by
  obtain ⟨a_1, b, c, d_1, tx, ty⟩ := M
  have h' : (a_1 + 1) * (d_1 + 1) - b * c ≠ 0 := h
  simp only [GeoM.Apply, GeoM.Invert, GeoM.det2x2, Prod.mk.injEq]
  constructor <;> field_simp <;> ring

theorem forwardMatrix_apply (M : GeoM K) (camera : Camera K) (flipYAxis : Bool) (W H : Int)
    (x y : K) :
    (forwardMatrix M camera flipYAxis W H).Apply x y
      = ((M.Apply x y).1 - camera.Offset.X + (W : K) / 2,
         (M.Apply x y).2 * flipFactor flipYAxis - camera.Offset.Y * flipFactor flipYAxis
           + (H : K) / 2) := by
  simp only [forwardMatrix, GeoM.Scale, GeoM.Translate, GeoM.Apply, Prod.mk.injEq]
  constructor <;> ring

theorem flipFactor_mul_self (flipYAxis : Bool) :
    (flipFactor flipYAxis : K) * flipFactor flipYAxis = 1 := by
  cases flipYAxis <;> simp [flipFactor]

/-- For a determinant that is not zero, `ScreenToWorld` returns the point whose
forward image is the screen point. -/
theorem worldToScreen_ScreenToWorld (screenPoint : Vector K) (M : GeoM K) (camera : Camera K)
    (flipYAxis : Bool) (W H : Int) (hdet : M.det2x2 ≠ 0) :
    ∃ p : Vector K, ScreenToWorld screenPoint M camera flipYAxis W H = some p ∧
      worldToScreen p M camera flipYAxis W H = screenPoint := by
  have hM : M.IsInvertible = true := (GeoM.isInvertible_iff M).2 hdet
  have hf := flipFactor_mul_self (K := K) flipYAxis
  refine ⟨_, by simp only [ScreenToWorld, hM, if_true]; rfl, ?_⟩
  obtain ⟨sx, sy⟩ := screenPoint
  simp only [worldToScreen, forwardMatrix_apply, GeoM.apply_concat, GeoM.apply_invert M hdet]
  simp only [GeoM.Scale, GeoM.Translate, GeoM.Apply, GeoM.zero, Vector.mk.injEq]
  constructor
  · ring
  · linear_combination (sy - (H : K) / 2 + camera.Offset.Y * flipFactor flipYAxis) * hf

/-- C2, as the claim states it, fails in `float64` arithmetic: for the camera
matrix `[[1, 2^600], [-2^600, 1]]` with the translation `(2^600, 2^600)`, whose
determinant `1 + 2^1200` is not zero, `IsInvertible` is true (the determinant
overflows to `+Inf`) and `ScreenToWorld` returns not-a-number in both
coordinates for the screen point `(800, 300)` on a 800x600 screen. -/
theorem ScreenToWorld_overflow_counterexample :
    IEEE.IsInvertible IEEE.hugeGeoM = true ∧
    IEEE.ScreenToWorld ⟨.fin 800, .fin 300⟩ IEEE.hugeGeoM ⟨⟨.fin 0, .fin 0⟩⟩ false 800 600
      = ⟨F64.nan, F64.nan⟩ := by
  refine ⟨IEEE.hugeGeoM_invertible, ?_⟩
  rw [IEEE.ScreenToWorld, if_pos IEEE.hugeGeoM_invertible, IEEE.hugeGeoM_inverse]
  simp only [IEEE.Translate, IEEE.Scale, IEEE.Concat, IEEE.Apply, F64.ofInt,
    F64.add_eq, F64.sub_eq, F64.mul_eq, F64.div_eq, F64.neg_eq,
    F64.zero_eq, F64.one_eq, F64.two_eq, F64.add, F64.mul, F64.div, F64.neg, F64.ofRat,
    F64.overflowAt]
  norm_num

/-- C2, amended: `ScreenToWorld` returns the undefined sentinel, not-a-number
in both coordinates, for every input whose matrix has a determinant that
compares equal to zero, whatever the screen point, camera offset, flip setting
and screen size, in `float64` arithmetic as in exact arithmetic; and in exact
arithmetic it returns the sentinel for no other matrix: for a determinant
that is not zero it returns the point whose forward image is the screen
point. -/
theorem ScreenToWorld_sentinel (sp : Vector F64) (G : GeoM F64) (cam : Camera F64)
    (screenPoint : Vector K) (M : GeoM K) (camera : Camera K) (flipYAxis : Bool) (W H : Int) :
    (IEEE.IsInvertible G = false →
      IEEE.ScreenToWorld sp G cam flipYAxis W H = ⟨F64.nan, F64.nan⟩) ∧
    (ScreenToWorld screenPoint M camera flipYAxis W H = none ↔ M.det2x2 = 0) ∧
    (M.det2x2 ≠ 0 → ∃ p : Vector K,
      ScreenToWorld screenPoint M camera flipYAxis W H = some p ∧
      worldToScreen p M camera flipYAxis W H = screenPoint) := by
  refine ⟨?_, ?_, ?_⟩
  · intro hG
    rw [IEEE.ScreenToWorld, hG]
    rfl
  · by_cases h : M.det2x2 = 0 <;> simp [ScreenToWorld, GeoM.IsInvertible, h]
  · exact worldToScreen_ScreenToWorld screenPoint M camera flipYAxis W H

/-- Witness of C2, amended: a camera matrix that scales by zero in `float64`
arithmetic, and the identity matrix in exact arithmetic, on a 800x600 screen. -/
theorem ScreenToWorld_sentinel_witness :
    IEEE.ScreenToWorld ⟨.fin 800, .fin 300⟩ ⟨.fin (-1), .fin 0, .fin 0, .fin (-1), .fin 0, .fin 0⟩
        ⟨⟨.fin 0, .fin 0⟩⟩ false 800 600 = ⟨F64.nan, F64.nan⟩ ∧
    ∃ p : Vector ℚ,
      ScreenToWorld (⟨800, 300⟩ : Vector ℚ) GeoM.zero ⟨⟨0, 0⟩⟩ false 800 600 = some p ∧
      worldToScreen p GeoM.zero ⟨⟨0, 0⟩⟩ false 800 600 = ⟨800, 300⟩ :=
  ⟨(ScreenToWorld_sentinel (K := ℚ) ⟨.fin 800, .fin 300⟩
      ⟨.fin (-1), .fin 0, .fin 0, .fin (-1), .fin 0, .fin 0⟩ ⟨⟨.fin 0, .fin 0⟩⟩
      ⟨800, 300⟩ GeoM.zero ⟨⟨0, 0⟩⟩ false 800 600).1
      (by
        simp only [IEEE.IsInvertible, IEEE.det2x2, F64.add_eq, F64.sub_eq, F64.mul_eq,
          F64.one_eq, F64.add, F64.mul, F64.neg, F64.ofRat, F64.overflowAt]
        norm_num [F64.ne0]),
    (ScreenToWorld_sentinel (K := ℚ) ⟨.fin 800, .fin 300⟩
      ⟨.fin (-1), .fin 0, .fin 0, .fin (-1), .fin 0, .fin 0⟩ ⟨⟨.fin 0, .fin 0⟩⟩
      ⟨800, 300⟩ GeoM.zero ⟨⟨0, 0⟩⟩ false 800 600).2.2
      (by simp [GeoM.det2x2, GeoM.zero])⟩

end FloatClaims

/-! ## DrawPolygon: what the two loops compute -/

section PolygonLemmas

variable {K : Type} [LinearOrderedField K]

theorem index_natCast {α : Type} (s : List α) (k : Nat) : index s (k : Int) = s[k]? := by
  simp [index]

theorem index_vertAt (verts : List (Vector K)) (k : Nat) (hn : 0 < verts.length) :
    index verts ((k % verts.length : Nat) : Int) = some (vertAt verts k) := by
  rw [index_natCast]
  have h : k % verts.length < verts.length := Nat.mod_lt _ hn
  simp [vertAt, List.getD_eq_getElem?_getD, List.getElem?_eq_getElem h]

theorem vertAt_congr (verts : List (Vector K)) (a b : Nat)
    (h : a % verts.length = b % verts.length) : vertAt verts a = vertAt verts b := by
  simp [vertAt, h]

theorem vertAt_mod (verts : List (Vector K)) (k : Nat) :
    vertAt verts (k % verts.length) = vertAt verts k :=
  vertAt_congr verts _ _ (Nat.mod_mod _ _)

theorem extrudeAt_mod (sqrt : K → K) (verts : List (Vector K)) (k : Nat)
    (hn : 0 < verts.length) :
    extrudeAt sqrt verts (k % verts.length) = extrudeAt sqrt verts k := by
  unfold extrudeAt
  have h1 : (k % verts.length + verts.length - 1) % verts.length
      = (k + verts.length - 1) % verts.length := by
    rw [Nat.add_sub_assoc hn, Nat.add_sub_assoc hn, Nat.add_mod, Nat.mod_mod, ← Nat.add_mod]
  have h2 : (k % verts.length + 1) % verts.length = (k + 1) % verts.length := by
    rw [Nat.add_mod, Nat.mod_mod, ← Nat.add_mod]
  rw [vertAt_congr verts _ _ h1, vertAt_mod, vertAt_congr verts _ _ h2]

theorem index_vertAt_lt (verts : List (Vector K)) (i : Nat) (hi : i < verts.length) :
    index verts (i : Int) = some (vertAt verts i) := by
  have hn : 0 < verts.length := Nat.lt_of_le_of_lt (Nat.zero_le _) hi
  have h := index_vertAt verts i hn
  rwa [Nat.mod_eq_of_lt hi] at h

theorem extrudeVert_eq (sqrt : K → K) (verts : List (Vector K)) (i : Nat)
    (hi : i < verts.length) :
    extrudeVert sqrt (verts.length : Int) verts (i : Int) = some (extrudeAt sqrt verts i) := by
  have hn : 0 < verts.length := Nat.lt_of_le_of_lt (Nat.zero_le _) hi
  have e0 : ((i : Int) - 1 + (verts.length : Int)).tmod (verts.length : Int)
      = (((i + verts.length - 1) % verts.length : Nat) : Int) := by
    have h : (i : Int) - 1 + (verts.length : Int) = ((i + verts.length - 1 : Nat) : Int) := by
      omega
    rw [h, Int.tmod_eq_emod (Int.natCast_nonneg _) (Int.natCast_nonneg _), Int.natCast_mod]
  have e2 : ((i : Int) + 1).tmod (verts.length : Int)
      = (((i + 1) % verts.length : Nat) : Int) := by
    have h : (i : Int) + 1 = ((i + 1 : Nat) : Int) := by omega
    rw [h, Int.tmod_eq_emod (Int.natCast_nonneg _) (Int.natCast_nonneg _), Int.natCast_mod]
  unfold extrudeVert
  rw [e0, e2, index_vertAt verts _ hn, index_vertAt verts _ hn, index_vertAt_lt verts i hi]
  rfl

theorem extrudeLoop_eq (sqrt : K → K) (verts : List (Vector K)) :
    ∀ (todo i : Nat) (acc : List (ExtrudeVerts K)), i + todo = verts.length →
      extrudeLoop sqrt (verts.length : Int) verts todo (i : Int) acc
        = some (acc ++ (List.range' i todo).map (extrudeAt sqrt verts)) := by
  intro todo
  induction todo with
  | zero => intro i acc _; simp [extrudeLoop]
  | succ todo ih =>
    intro i acc h
    have hi : i < verts.length := by omega
    have hstep := ih (i + 1) (acc ++ [extrudeAt sqrt verts i]) (by omega)
    have hc : ((i : Int) + 1) = ((i + 1 : Nat) : Int) := by omega
    unfold extrudeLoop
    rw [extrudeVert_eq sqrt verts i hi]
    simp only [Option.bind_eq_bind, Option.some_bind]
    rw [hc, hstep, List.range'_succ, List.map_cons, List.append_assoc]
    rfl

theorem extrudeAll_eq (sqrt : K → K) (verts : List (Vector K)) :
    extrudeAll sqrt (verts.length : Int) verts
      = some ((List.range verts.length).map (extrudeAt sqrt verts)) := by
  unfold extrudeAll
  rw [if_neg (by omega), Int.toNat_natCast]
  have h := extrudeLoop_eq sqrt verts verts.length 0 [] (by omega)
  rw [Nat.cast_zero] at h
  rw [h, List.range_eq_range']
  rfl

theorem index_extrude (sqrt : K → K) (verts : List (Vector K)) (k : Nat)
    (hk : k < verts.length) :
    index ((List.range verts.length).map (extrudeAt sqrt verts)) (k : Int)
      = some (extrudeAt sqrt verts k) := by
  rw [index_natCast, List.getElem?_map, List.getElem?_range hk]
  rfl

omit [LinearOrderedField K] in
theorem prevIdx_lt (verts : List (Vector K)) (i : Nat) (hn : 0 < verts.length) :
    prevIdx verts i < verts.length := Nat.mod_lt _ hn

theorem pairOps_eq (sqrt : K → K) (verts : List (Vector K)) (radius : K) (i : Nat)
    (hi : i < verts.length) :
    pairOps radius verts ((List.range verts.length).map (extrudeAt sqrt verts)) (i : Int)
        (prevIdx verts i : Int)
      = some (roundPath sqrt verts radius i) := by
  have hn : 0 < verts.length := Nat.lt_of_le_of_lt (Nat.zero_le _) hi
  have hA : index verts (i : Int) = some (vertAt verts i) := index_vertAt_lt verts i hi
  have hB : index verts (prevIdx verts i : Int) = some (vertAt verts (prevIdx verts i)) := by
    unfold prevIdx
    rw [index_vertAt verts _ hn, vertAt_mod]
  unfold pairOps
  rw [hA, hB, index_extrude sqrt verts i hi,
    index_extrude sqrt verts _ (prevIdx_lt verts i hn)]
  rfl

theorem polyLoop_eq (sqrt : K → K) (verts : List (Vector K)) (radius : K) :
    ∀ (todo i : Nat) (path : List (PathOp K)), i + todo = verts.length →
      polyLoop radius verts ((List.range verts.length).map (extrudeAt sqrt verts)) todo
          (i : Int) (prevIdx verts i : Int) path
        = some (path ++ (List.range' i todo).flatMap (roundPath sqrt verts radius)) := by
  intro todo
  induction todo with
  | zero => intro i path _; simp [polyLoop]
  | succ todo ih =>
    intro i path h
    have hi : i < verts.length := by omega
    have hn : 0 < verts.length := by omega
    have hj : (i : Int) = (prevIdx verts (i + 1) : Int) := by
      unfold prevIdx
      have : i + 1 + verts.length - 1 = i + verts.length := by omega
      rw [this, Nat.add_mod_right, Nat.mod_eq_of_lt hi]
    have hstep := ih (i + 1) (path ++ roundPath sqrt verts radius i) (by omega)
    rw [← hj] at hstep
    unfold polyLoop
    rw [pairOps_eq sqrt verts radius i hi]
    simp only [Option.bind_eq_bind, Option.some_bind]
    have hc : ((i : Int) + 1) = ((i + 1 : Nat) : Int) := by omega
    rw [hc, hstep, List.range'_succ, List.flatMap_cons, List.append_assoc]

/-- What `DrawPolygon` builds for a polygon given by all of `verts`: the
rounds of the second loop in order, then `Close`; it does not panic. -/
theorem DrawPolygon_eq (sqrt : K → K) (verts : List (Vector K)) (radius : K) :
    DrawPolygon sqrt (verts.length : Int) verts radius
      = some ((List.range verts.length).flatMap (roundPath sqrt verts radius) ++ [.Close]) := by
  unfold DrawPolygon
  rw [extrudeAll_eq, Int.toNat_natCast]
  simp only [Option.bind_eq_bind, Option.some_bind]
  rcases Nat.eq_zero_or_pos verts.length with h0 | hn
  · rw [h0]; simp [polyLoop]
  · have hj : ((verts.length : Int) - 1) = (prevIdx verts 0 : Int) := by
      unfold prevIdx
      rw [Nat.zero_add, Nat.mod_eq_of_lt (by omega)]
      omega
    have h := polyLoop_eq sqrt verts radius verts.length 0 [] (by omega)
    rw [hj]
    rw [Nat.cast_zero] at h
    rw [h, List.range_eq_range']
    rfl

theorem flatMap_range_length {α : Type} (g : Nat → List α) (hg : ∀ k, (g k).length = 3)
    (n : Nat) : ((List.range n).flatMap g).length = 3 * n := by
  induction n with
  | zero => rfl
  | succ n ih =>
    rw [List.range_succ, List.flatMap_append, List.length_append, ih,
      List.flatMap_singleton, hg]
    omega

theorem flatMap_range_getElem? {α : Type} (g : Nat → List α) (hg : ∀ k, (g k).length = 3)
    (n i r : Nat) (hi : i < n) (hr : r < 3) :
    ((List.range n).flatMap g)[3 * i + r]? = (g i)[r]? := by
  induction n with
  | zero => omega
  | succ n ih =>
    rw [List.range_succ, List.flatMap_append, List.flatMap_singleton]
    rcases Nat.lt_or_ge i n with h | h
    · rw [List.getElem?_append_left (by rw [flatMap_range_length g hg]; omega)]
      exact ih h
    · have hin : i = n := by omega
      subst hin
      rw [List.getElem?_append_right (by rw [flatMap_range_length g hg]; omega),
        flatMap_range_length g hg]
      congr 1
      omega

theorem roundPath_length (sqrt : K → K) (verts : List (Vector K)) (radius : K) (i : Nat) :
    (roundPath sqrt verts radius i).length = 3 := rfl

theorem roundPath_kinds (sqrt : K → K) (verts : List (Vector K)) (radius : K) (i : Nat) :
    (roundPath sqrt verts radius i).map PathOp.kind
      = if radius = 0 then [.lineTo, .lineTo, .lineTo] else [.lineTo, .lineTo, .arcTo] := by
  by_cases h : radius = 0 <;> simp [roundPath, pairPath, PathOp.kind, h]

theorem Vector.ne_iff (u v : Vector K) : u ≠ v ↔ v.X - u.X ≠ 0 ∨ v.Y - u.Y ≠ 0 := by
  obtain ⟨ux, uy⟩ := u
  obtain ⟨vx, vy⟩ := v
  simp only [ne_eq, Vector.mk.injEq, sub_eq_zero]
  constructor
  · intro h
    by_contra hc
    push_neg at hc
    exact h ⟨hc.1.symm, hc.2.symm⟩
  · rintro (h | h) ⟨h1, h2⟩
    · exact h h1.symm
    · exact h h2.symm

theorem scaled_unit (a b S : K) (hS : S * S = a * a + -b * -b) (h0 : S ≠ 0) :
    a * (1 / S) * (a * (1 / S)) + -b * (1 / S) * (-b * (1 / S)) = 1 := by
  field_simp
  linear_combination -hS

/-- For two different points and a true square root, the edge normal of lines
137-138 has length one. -/
theorem edgeNormal_unit (sqrt : K → K) (hsqrt : ∀ x : K, 0 ≤ x → sqrt x * sqrt x = x)
    (u v : Vector K) (huv : u ≠ v) :
    (edgeNormal sqrt u v).Dot (edgeNormal sqrt u v) = 1 := by
  have hne := (Vector.ne_iff u v).1 huv
  have hpos : 0 < (v.Y - u.Y) * (v.Y - u.Y) + -(v.X - u.X) * -(v.X - u.X) := by
    rcases hne with h | h
    · have := mul_self_pos.2 h
      nlinarith [mul_self_nonneg (v.Y - u.Y)]
    · have := mul_self_pos.2 h
      nlinarith [mul_self_nonneg (v.X - u.X)]
  have hs := hsqrt _ (le_of_lt hpos)
  have hs0 : sqrt ((v.Y - u.Y) * (v.Y - u.Y) + -(v.X - u.X) * -(v.X - u.X)) ≠ 0 := by
    intro h0
    rw [h0, mul_zero] at hs
    exact absurd hs.symm (ne_of_gt hpos)
  simp only [edgeNormal, Vector.Normalize, Vector.Length, Vector.ReversePerp, Vector.Sub,
    Vector.Mult, Vector.Dot]
  exact scaled_unit _ _ _ hs hs0

/-- The edge normal of lines 137-138 is perpendicular to its edge. -/
theorem edgeNormal_perp (sqrt : K → K) (u v : Vector K) :
    (v.Sub u).Dot (edgeNormal sqrt u v) = 0 := by
  simp only [edgeNormal, Vector.Normalize, Vector.Length, Vector.ReversePerp, Vector.Sub,
    Vector.Mult, Vector.Dot]
  ring

/-- The miter offset of line 140 has dot product one with the second normal. -/
theorem miter_dot_right (a b : Vector K) (hb : b.Dot b = 1) (hab : a.Dot b ≠ -1) :
    ((a.Add b).Mult (1 / (a.Dot b + 1))).Dot b = 1 := by
  have hne : a.Dot b + 1 ≠ 0 := fun h => hab (by linear_combination h)
  have h : ((a.Add b).Mult (1 / (a.Dot b + 1))).Dot b
      = (a.Dot b + b.Dot b) * (1 / (a.Dot b + 1)) := by
    simp only [Vector.Add, Vector.Mult, Vector.Dot]
    ring
  rw [h, hb]
  field_simp

/-- The miter offset of line 140 has dot product one with the first normal. -/
theorem miter_dot_left (a b : Vector K) (ha : a.Dot a = 1) (hab : a.Dot b ≠ -1) :
    ((a.Add b).Mult (1 / (a.Dot b + 1))).Dot a = 1 := by
  have hne : a.Dot b + 1 ≠ 0 := fun h => hab (by linear_combination h)
  have h : ((a.Add b).Mult (1 / (a.Dot b + 1))).Dot a
      = (a.Dot a + a.Dot b) * (1 / (a.Dot b + 1)) := by
    simp only [Vector.Add, Vector.Mult, Vector.Dot]
    ring
  rw [h, ha, add_comm]
  field_simp

theorem polyInset_add_polyOutset (radius : K) :
    polyInset radius + polyOutset radius = 1 / DrawPointLineScale + radius := by
  unfold polyOutset
  ring

theorem offset_point_dot (q off nB vB : Vector K) (s t : K) :
    (((q.Add (off.Mult s)).Add (nB.Mult t)).Sub vB).Dot nB
      = (q.Sub vB).Dot nB + s * off.Dot nB + t * nB.Dot nB := by
  simp only [Vector.Add, Vector.Mult, Vector.Dot, Vector.Sub]
  ring

theorem extrudeAt_eq (sqrt : K → K) (verts : List (Vector K)) (k : Nat) :
    extrudeAt sqrt verts k
      = extrudeOf sqrt (vertAt verts (prevIdx verts k)) (vertAt verts k)
          (vertAt verts (k + 1)) := by
  unfold extrudeAt prevIdx
  rw [vertAt_mod]

theorem vertAt_prevIdx_succ (verts : List (Vector K)) (i : Nat) (hn : 0 < verts.length) :
    vertAt verts (prevIdx verts i + 1) = vertAt verts i := by
  apply vertAt_congr
  unfold prevIdx
  rw [Nat.add_mod, Nat.mod_mod, ← Nat.add_mod]
  have : i + verts.length - 1 + 1 = i + verts.length := by omega
  rw [this, Nat.add_mod_right]

end PolygonLemmas

/-! ## DrawPolygon: the claims -/

section PolygonTheorems

variable {K : Type} [LinearOrderedField K]

/-- C5: for a polygon in which consecutive vertices differ and no two
consecutive edge normals are anti-parallel, and any radius, `DrawPolygon`
returns a path whose commands `3 i` and `3 i + 1` are the line-to commands to
`outer1` and `outer0` of the pair `(i, j)`, `j` the vertex before `i`; the
normal `nB` of the edge from `verts[j]` to `verts[i]` has length one and is
perpendicular to the edge, and both points have signed distance
`1 / DrawPointLineScale + radius` from the line of the edge, measured along
`nB`. -/
theorem DrawPolygon_edge_offset (sqrt : K → K)
    (hsqrt : ∀ x : K, 0 ≤ x → sqrt x * sqrt x = x)
    (verts : List (Vector K)) (radius : K) (hn : 3 ≤ verts.length)
    (hdistinct : ∀ i, i < verts.length → vertAt verts i ≠ vertAt verts (i + 1))
    (hanti : ∀ i, i < verts.length →
      (edgeNormal sqrt (vertAt verts (prevIdx verts i)) (vertAt verts i)).Dot
        (edgeNormal sqrt (vertAt verts i) (vertAt verts (i + 1))) ≠ -1) :
    ∃ path : List (PathOp K),
      DrawPolygon sqrt (verts.length : Int) verts radius = some path ∧
      ∀ i, i < verts.length →
        ∃ o1 o0 : Vector K,
          path[3 * i]? = some (.LineTo o1.X o1.Y) ∧
          path[3 * i + 1]? = some (.LineTo o0.X o0.Y) ∧
          (edgeNormal sqrt (vertAt verts (prevIdx verts i)) (vertAt verts i)).Dot
            (edgeNormal sqrt (vertAt verts (prevIdx verts i)) (vertAt verts i)) = 1 ∧
          ((vertAt verts i).Sub (vertAt verts (prevIdx verts i))).Dot
            (edgeNormal sqrt (vertAt verts (prevIdx verts i)) (vertAt verts i)) = 0 ∧
          (o1.Sub (vertAt verts (prevIdx verts i))).Dot
            (edgeNormal sqrt (vertAt verts (prevIdx verts i)) (vertAt verts i))
              = 1 / DrawPointLineScale + radius ∧
          (o0.Sub (vertAt verts (prevIdx verts i))).Dot
            (edgeNormal sqrt (vertAt verts (prevIdx verts i)) (vertAt verts i))
              = 1 / DrawPointLineScale + radius := by
  have hpos : 0 < verts.length := by omega
  refine ⟨_, DrawPolygon_eq sqrt verts radius, ?_⟩
  intro i hi
  have hj : prevIdx verts i < verts.length := prevIdx_lt verts i hpos
  have hsucc := vertAt_prevIdx_succ verts i hpos
  -- the normal of the edge from `verts[j]` to `verts[i]`
  have hne : vertAt verts (prevIdx verts i) ≠ vertAt verts i := by
    have h := hdistinct _ hj
    rwa [hsucc] at h
  have hunit := edgeNormal_unit sqrt hsqrt _ _ hne
  have hperp := edgeNormal_perp sqrt (vertAt verts (prevIdx verts i)) (vertAt verts i)
  -- the two entries of `extrude`
  have hA := extrudeAt_eq sqrt verts i
  have hB := extrudeAt_eq sqrt verts (prevIdx verts i)
  rw [hsucc] at hB
  have hantiA := hanti i hi
  have hantiB := hanti _ hj
  rw [hsucc] at hantiB
  have hoffA := miter_dot_left _ _ hunit hantiA
  have hoffB := miter_dot_right _ _ hunit hantiB
  refine ⟨outer1 radius (vertAt verts (prevIdx verts i)) (extrudeAt sqrt verts (prevIdx verts i)),
    outer0 radius (vertAt verts i) (extrudeAt sqrt verts i)
      (extrudeAt sqrt verts (prevIdx verts i)), ?_, ?_, hunit, hperp, ?_, ?_⟩
  · rw [List.getElem?_append_left
      (by rw [flatMap_range_length _ (roundPath_length sqrt verts radius)]; omega)]
    have h := flatMap_range_getElem? (roundPath sqrt verts radius)
      (roundPath_length sqrt verts radius) verts.length i 0 hi (by omega)
    rw [Nat.add_zero] at h
    rw [h]
    rfl
  · rw [List.getElem?_append_left
      (by rw [flatMap_range_length _ (roundPath_length sqrt verts radius)]; omega)]
    rw [flatMap_range_getElem? (roundPath sqrt verts radius)
      (roundPath_length sqrt verts radius) verts.length i 1 hi (by omega)]
    rfl
  · rw [hB]
    simp only [outer1, extrudeOf]
    rw [offset_point_dot, hoffB, hunit]
    have h0 : ((vertAt verts (prevIdx verts i)).Sub (vertAt verts (prevIdx verts i))).Dot
        (edgeNormal sqrt (vertAt verts (prevIdx verts i)) (vertAt verts i)) = 0 := by
      simp [Vector.Sub, Vector.Dot]
    rw [h0, ← polyInset_add_polyOutset]
    ring
  · rw [hA, hB]
    simp only [outer0, extrudeOf]
    rw [offset_point_dot, hoffA, hunit, hperp, ← polyInset_add_polyOutset]
    ring

/-- Witness of C5: the unit square with radius `1/2` and the real square root. -/
theorem DrawPolygon_edge_offset_witness :
    (∀ x : ℝ, 0 ≤ x → Real.sqrt x * Real.sqrt x = x) ∧ 3 ≤ unitSquare.length ∧
    (∀ i, i < unitSquare.length → vertAt unitSquare i ≠ vertAt unitSquare (i + 1)) ∧
    (∀ i, i < unitSquare.length →
      (edgeNormal Real.sqrt (vertAt unitSquare (prevIdx unitSquare i)) (vertAt unitSquare i)).Dot
        (edgeNormal Real.sqrt (vertAt unitSquare i) (vertAt unitSquare (i + 1))) ≠ -1) ∧
    ∃ path : List (PathOp ℝ),
      DrawPolygon Real.sqrt (unitSquare.length : Int) unitSquare (1 / 2) = some path ∧
      ∀ i, i < unitSquare.length →
        ∃ o1 o0 : Vector ℝ,
          path[3 * i]? = some (.LineTo o1.X o1.Y) ∧
          path[3 * i + 1]? = some (.LineTo o0.X o0.Y) ∧
          (edgeNormal Real.sqrt (vertAt unitSquare (prevIdx unitSquare i))
            (vertAt unitSquare i)).Dot
            (edgeNormal Real.sqrt (vertAt unitSquare (prevIdx unitSquare i))
              (vertAt unitSquare i)) = 1 ∧
          ((vertAt unitSquare i).Sub (vertAt unitSquare (prevIdx unitSquare i))).Dot
            (edgeNormal Real.sqrt (vertAt unitSquare (prevIdx unitSquare i))
              (vertAt unitSquare i)) = 0 ∧
          (o1.Sub (vertAt unitSquare (prevIdx unitSquare i))).Dot
            (edgeNormal Real.sqrt (vertAt unitSquare (prevIdx unitSquare i))
              (vertAt unitSquare i))
              = 1 / DrawPointLineScale + 1 / 2 ∧
          (o0.Sub (vertAt unitSquare (prevIdx unitSquare i))).Dot
            (edgeNormal Real.sqrt (vertAt unitSquare (prevIdx unitSquare i))
              (vertAt unitSquare i))
              = 1 / DrawPointLineScale + 1 / 2 :=
  have hsqrt : ∀ x : ℝ, 0 ≤ x → Real.sqrt x * Real.sqrt x = x := fun _ hx =>
    Real.mul_self_sqrt hx
  have hn : 3 ≤ unitSquare.length := by decide
  have hdistinct : ∀ i, i < unitSquare.length →
      vertAt unitSquare i ≠ vertAt unitSquare (i + 1) := by
    intro i hi
    have hi4 : i < 4 := hi
    interval_cases i <;> simp [vertAt, unitSquare]
  have hanti : ∀ i, i < unitSquare.length →
      (edgeNormal Real.sqrt (vertAt unitSquare (prevIdx unitSquare i)) (vertAt unitSquare i)).Dot
        (edgeNormal Real.sqrt (vertAt unitSquare i) (vertAt unitSquare (i + 1))) ≠ -1 := by
    intro i hi
    have hi4 : i < 4 := hi
    interval_cases i <;>
      simp [vertAt, prevIdx, unitSquare, edgeNormal, Vector.Normalize, Vector.Length,
        Vector.ReversePerp, Vector.Sub, Vector.Mult, Vector.Dot]
  ⟨hsqrt, hn, hdistinct, hanti,
    DrawPolygon_edge_offset Real.sqrt hsqrt unitSquare (1 / 2) hn hdistinct hanti⟩

/-- C6, as the claim states it, fails: for the triangle `(0,0), (4,0), (4,3)`
the path built with radius `0` has 10 commands and the path built with radius
`1` has 10 commands, so the first is not shorter. -/
theorem DrawPolygon_count_counterexample :
    ∃ p0 p1 : List (PathOp ℝ),
      DrawPolygon Real.sqrt 3 triangle345 0 = some p0 ∧
      DrawPolygon Real.sqrt 3 triangle345 1 = some p1 ∧
      p0.length = 10 ∧ p1.length = 10 ∧ ¬ p0.length < p1.length := by
  have h0 := DrawPolygon_eq Real.sqrt triangle345 0
  have h1 := DrawPolygon_eq Real.sqrt triangle345 1
  refine ⟨_, _, h0, h1, ?_, ?_, ?_⟩ <;>
    simp [flatMap_range_length _ (roundPath_length Real.sqrt _ _), triangle345]

/-- C6, amended: for a polygon of `n` vertices the path `DrawPolygon` builds
has `3 n + 1` commands for every radius, so as many for radius `0` as for any
radius `> 0`. -/
theorem DrawPolygon_count (sqrt : K → K) (verts : List (Vector K)) (radius : K) :
    (DrawPolygon sqrt (verts.length : Int) verts radius).map List.length
        = some (3 * verts.length + 1) ∧
    (DrawPolygon sqrt (verts.length : Int) verts 0).map List.length
        = (DrawPolygon sqrt (verts.length : Int) verts radius).map List.length := by
  simp [DrawPolygon_eq, flatMap_range_length _ (roundPath_length sqrt verts _)]

/-- C7: for a polygon of `n ≥ 3` vertices and any radius, the path
`DrawPolygon` builds is a list of commands followed by one `Close`; no command
before it is a `Close` or a `MoveTo`, and the first one is the line-to that
starts the outline at `outer1` of the pair `(0, n - 1)`. -/
theorem DrawPolygon_closed (sqrt : K → K) (verts : List (Vector K)) (radius : K)
    (hn : 3 ≤ verts.length) :
    ∃ body : List (PathOp K),
      DrawPolygon sqrt (verts.length : Int) verts radius = some (body ++ [.Close]) ∧
      (∀ op ∈ body, op.kind ≠ .close ∧ op.kind ≠ .moveTo) ∧
      body.head? = some (.LineTo
        (outer1 radius (vertAt verts (verts.length - 1))
          (extrudeAt sqrt verts (verts.length - 1))).X
        (outer1 radius (vertAt verts (verts.length - 1))
          (extrudeAt sqrt verts (verts.length - 1))).Y) := by
  refine ⟨_, DrawPolygon_eq sqrt verts radius, ?_, ?_⟩
  · intro op hop
    obtain ⟨i, _, hi⟩ := List.mem_flatMap.1 hop
    have hk := roundPath_kinds sqrt verts radius i
    have hmem : op.kind ∈ (roundPath sqrt verts radius i).map PathOp.kind :=
      List.mem_map_of_mem _ hi
    rw [hk] at hmem
    have hor : op.kind = .lineTo ∨ op.kind = .arcTo := by
      by_cases h : radius = 0
      · rw [if_pos h] at hmem
        simp only [List.mem_cons, List.mem_singleton, List.not_mem_nil, or_self, or_false]
          at hmem
        exact Or.inl hmem
      · rw [if_neg h] at hmem
        simp only [List.mem_cons, List.mem_singleton, List.not_mem_nil, or_self, or_false]
          at hmem
        exact hmem.elim Or.inl id
    rcases hor with h | h <;> rw [h] <;> exact ⟨by decide, by decide⟩
  · have h0 := flatMap_range_getElem? (roundPath sqrt verts radius)
      (roundPath_length sqrt verts radius) verts.length 0 0 (by omega) (by omega)
    have hp : prevIdx verts 0 = verts.length - 1 := by
      unfold prevIdx
      rw [Nat.zero_add, Nat.mod_eq_of_lt (by omega)]
    rw [List.head?_eq_getElem?]
    simp only [Nat.mul_zero, Nat.add_zero] at h0
    rw [h0]
    simp [roundPath, pairPath, hp]

/-- Witness of C7: the triangle `(0,0), (4,0), (4,3)` with radius `2`. -/
theorem DrawPolygon_closed_witness :
    3 ≤ triangle345.length ∧
    ∃ body : List (PathOp ℝ),
      DrawPolygon Real.sqrt (triangle345.length : Int) triangle345 2
        = some (body ++ [.Close]) ∧
      (∀ op ∈ body, op.kind ≠ .close ∧ op.kind ≠ .moveTo) ∧
      body.head? = some (.LineTo
        (outer1 2 (vertAt triangle345 (triangle345.length - 1))
          (extrudeAt Real.sqrt triangle345 (triangle345.length - 1))).X
        (outer1 2 (vertAt triangle345 (triangle345.length - 1))
          (extrudeAt Real.sqrt triangle345 (triangle345.length - 1))).Y) :=
  ⟨by decide, DrawPolygon_closed Real.sqrt triangle345 2 (by decide)⟩

/-- C8: for a polygon of `n` vertices the kinds of the commands `DrawPolygon`
issues are, vertex by vertex, three line-to when the radius is `0` (no arc at
all) and two line-to followed by one arc-to-point otherwise, then one close. -/
theorem DrawPolygon_kinds (sqrt : K → K) (verts : List (Vector K)) (radius : K) :
    (DrawPolygon sqrt (verts.length : Int) verts radius).map (List.map PathOp.kind)
      = some ((List.range verts.length).flatMap
          (fun _ => if radius = 0 then [OpKind.lineTo, .lineTo, .lineTo]
            else [OpKind.lineTo, .lineTo, .arcTo]) ++ [.close]) := by
  rw [DrawPolygon_eq]
  simp only [Option.map_some', List.map_append, List.map_flatMap, roundPath_kinds]
  rfl

end PolygonTheorems

/-! ## DrawPolygon: the miter corner and the indices -/

section PolygonMiter

variable {K : Type} [LinearOrderedField K]

theorem outer2_eq (radius : K) (v off : Vector K) :
    (v.Add (off.Mult (polyInset radius))).Add (off.Mult (polyOutset radius))
      = v.Add (off.Mult (1 / DrawPointLineScale + radius)) := by
  rw [← polyInset_add_polyOutset]
  simp only [Vector.Add, Vector.Mult, Vector.mk.injEq]
  constructor <;> ring

theorem scaled_offset_dot (v off n : Vector K) (s : K) :
    ((v.Add (off.Mult s)).Sub v).Dot n = s * off.Dot n := by
  simp only [Vector.Add, Vector.Mult, Vector.Sub, Vector.Dot]
  ring

/-- C17: at a vertex `i` of a polygon whose two adjacent edges are not
degenerate and whose edge normals `n1`, `n2` are not anti-parallel, the offset
`DrawPolygon` stores in `extrude[i]` is `(n1 + n2) / (n1 . n2 + 1)` and has dot
product `1` with `n1` and with `n2`; the corner point
`v + offset * (1 / DrawPointLineScale + radius)` is the point of the third
command of the round `i` (the line-to when the radius is `0`, the first point
of the arc-to otherwise) and has signed distance `1 / DrawPointLineScale +
radius` from both adjacent edges, along `n1` and along `n2`. -/
theorem miter_corner (sqrt : K → K) (hsqrt : ∀ x : K, 0 ≤ x → sqrt x * sqrt x = x)
    (verts : List (Vector K)) (radius : K) (i : Nat) (hi : i < verts.length)
    (h01 : vertAt verts (prevIdx verts i) ≠ vertAt verts i)
    (h12 : vertAt verts i ≠ vertAt verts (i + 1))
    (hanti : (edgeNormal sqrt (vertAt verts (prevIdx verts i)) (vertAt verts i)).Dot
        (edgeNormal sqrt (vertAt verts i) (vertAt verts (i + 1))) ≠ -1) :
    ∃ (path : List (PathOp K)) (o2 : Vector K),
      DrawPolygon sqrt (verts.length : Int) verts radius = some path ∧
      (extrudeAt sqrt verts i).offset
        = ((edgeNormal sqrt (vertAt verts (prevIdx verts i)) (vertAt verts i)).Add
            (edgeNormal sqrt (vertAt verts i) (vertAt verts (i + 1)))).Mult
          (1 / ((edgeNormal sqrt (vertAt verts (prevIdx verts i)) (vertAt verts i)).Dot
            (edgeNormal sqrt (vertAt verts i) (vertAt verts (i + 1))) + 1)) ∧
      (extrudeAt sqrt verts i).offset.Dot
        (edgeNormal sqrt (vertAt verts (prevIdx verts i)) (vertAt verts i)) = 1 ∧
      (extrudeAt sqrt verts i).offset.Dot
        (edgeNormal sqrt (vertAt verts i) (vertAt verts (i + 1))) = 1 ∧
      o2 = (vertAt verts i).Add
        ((extrudeAt sqrt verts i).offset.Mult (1 / DrawPointLineScale + radius)) ∧
      (radius = 0 → path[3 * i + 2]? = some (.LineTo o2.X o2.Y)) ∧
      (radius ≠ 0 → ∃ x y : K, path[3 * i + 2]? = some (.ArcTo o2.X o2.Y x y radius)) ∧
      (o2.Sub (vertAt verts i)).Dot
        (edgeNormal sqrt (vertAt verts (prevIdx verts i)) (vertAt verts i))
          = 1 / DrawPointLineScale + radius ∧
      (o2.Sub (vertAt verts i)).Dot
        (edgeNormal sqrt (vertAt verts i) (vertAt verts (i + 1)))
          = 1 / DrawPointLineScale + radius := by
  have hu1 := edgeNormal_unit sqrt hsqrt _ _ h01
  have hu2 := edgeNormal_unit sqrt hsqrt _ _ h12
  have hA := extrudeAt_eq sqrt verts i
  have hoff : (extrudeAt sqrt verts i).offset
      = ((edgeNormal sqrt (vertAt verts (prevIdx verts i)) (vertAt verts i)).Add
          (edgeNormal sqrt (vertAt verts i) (vertAt verts (i + 1)))).Mult
        (1 / ((edgeNormal sqrt (vertAt verts (prevIdx verts i)) (vertAt verts i)).Dot
          (edgeNormal sqrt (vertAt verts i) (vertAt verts (i + 1))) + 1)) := by
    rw [hA]
    rfl
  have hd1 := miter_dot_left _ _ hu1 hanti
  have hd2 := miter_dot_right _ _ hu2 hanti
  rw [← hoff] at hd1 hd2
  have hget : ((List.range verts.length).flatMap (roundPath sqrt verts radius)
      ++ [PathOp.Close])[3 * i + 2]? = (roundPath sqrt verts radius i)[2]? := by
    rw [List.getElem?_append_left
      (by rw [flatMap_range_length _ (roundPath_length sqrt verts radius)]; omega)]
    exact flatMap_range_getElem? (roundPath sqrt verts radius)
      (roundPath_length sqrt verts radius) verts.length i 2 hi (by omega)
  refine ⟨_, _, DrawPolygon_eq sqrt verts radius, hoff, hd1, hd2, rfl, ?_, ?_, ?_, ?_⟩
  · intro hr
    rw [hget]
    simp [roundPath, pairPath, hr, outer2_eq]
  · intro hr
    rw [hget]
    simp [roundPath, pairPath, hr, outer2_eq]
  · rw [scaled_offset_dot, hd1, mul_one]
  · rw [scaled_offset_dot, hd2, mul_one]

/-- Witness of C17: the vertex 0 of the unit square, with radius `0` and the
real square root. -/
theorem miter_corner_witness :
    ∃ (path : List (PathOp ℝ)) (o2 : Vector ℝ),
      DrawPolygon Real.sqrt (unitSquare.length : Int) unitSquare 0 = some path ∧
      (extrudeAt Real.sqrt unitSquare 0).offset
        = ((edgeNormal Real.sqrt (vertAt unitSquare (prevIdx unitSquare 0))
              (vertAt unitSquare 0)).Add
            (edgeNormal Real.sqrt (vertAt unitSquare 0) (vertAt unitSquare (0 + 1)))).Mult
          (1 / ((edgeNormal Real.sqrt (vertAt unitSquare (prevIdx unitSquare 0))
              (vertAt unitSquare 0)).Dot
            (edgeNormal Real.sqrt (vertAt unitSquare 0) (vertAt unitSquare (0 + 1))) + 1)) ∧
      (extrudeAt Real.sqrt unitSquare 0).offset.Dot
        (edgeNormal Real.sqrt (vertAt unitSquare (prevIdx unitSquare 0))
          (vertAt unitSquare 0)) = 1 ∧
      (extrudeAt Real.sqrt unitSquare 0).offset.Dot
        (edgeNormal Real.sqrt (vertAt unitSquare 0) (vertAt unitSquare (0 + 1))) = 1 ∧
      o2 = (vertAt unitSquare 0).Add
        ((extrudeAt Real.sqrt unitSquare 0).offset.Mult (1 / DrawPointLineScale + 0)) ∧
      ((0 : ℝ) = 0 → path[3 * 0 + 2]? = some (.LineTo o2.X o2.Y)) ∧
      ((0 : ℝ) ≠ 0 → ∃ x y : ℝ, path[3 * 0 + 2]? = some (.ArcTo o2.X o2.Y x y 0)) ∧
      (o2.Sub (vertAt unitSquare 0)).Dot
        (edgeNormal Real.sqrt (vertAt unitSquare (prevIdx unitSquare 0))
          (vertAt unitSquare 0))
          = 1 / DrawPointLineScale + 0 ∧
      (o2.Sub (vertAt unitSquare 0)).Dot
        (edgeNormal Real.sqrt (vertAt unitSquare 0) (vertAt unitSquare (0 + 1)))
          = 1 / DrawPointLineScale + 0 :=
  miter_corner Real.sqrt (fun _ hx => Real.mul_self_sqrt hx) unitSquare 0 0 (by decide)
    (by simp [vertAt, prevIdx, unitSquare])
    (by simp [vertAt, unitSquare])
    (by simp [vertAt, prevIdx, unitSquare, edgeNormal, Vector.Normalize, Vector.Length,
      Vector.ReversePerp, Vector.Sub, Vector.Mult, Vector.Dot])

end PolygonMiter

section PolygonIndices

variable {K : Type} [LinearOrderedField K]

theorem pred_index_eq (i n : Nat) (hn : 0 < n) :
    ((i : Int) - 1 + (n : Int)).tmod (n : Int) = (((i + n - 1) % n : Nat) : Int) := by
  have h : (i : Int) - 1 + (n : Int) = ((i + n - 1 : Nat) : Int) := by omega
  rw [h, Int.tmod_eq_emod (Int.natCast_nonneg _) (Int.natCast_nonneg _), Int.natCast_mod]

theorem succ_index_eq (i n : Nat) :
    ((i : Int) + 1).tmod (n : Int) = (((i + 1) % n : Nat) : Int) := by
  have h : (i : Int) + 1 = ((i + 1 : Nat) : Int) := by omega
  rw [h, Int.tmod_eq_emod (Int.natCast_nonneg _) (Int.natCast_nonneg _), Int.natCast_mod]

theorem index_take {α : Type} (s : List α) (n k : Nat) (hk : k < n) :
    index (s.take n) (k : Int) = index s (k : Int) := by
  rw [index_natCast, index_natCast, List.getElem?_take, if_pos hk]

theorem extrudeVert_take (sqrt : K → K) (verts : List (Vector K)) (n i : Nat) (hi : i < n) :
    extrudeVert sqrt (n : Int) (verts.take n) (i : Int)
      = extrudeVert sqrt (n : Int) verts (i : Int) := by
  have hn : 0 < n := by omega
  unfold extrudeVert
  rw [pred_index_eq i n hn, succ_index_eq i n, index_take verts n _ (Nat.mod_lt _ hn),
    index_take verts n _ (Nat.mod_lt _ hn), index_take verts n i hi]

theorem extrudeLoop_take (sqrt : K → K) (verts : List (Vector K)) (n : Nat) :
    ∀ (todo i : Nat) (acc : List (ExtrudeVerts K)), i + todo ≤ n →
      extrudeLoop sqrt (n : Int) (verts.take n) todo (i : Int) acc
        = extrudeLoop sqrt (n : Int) verts todo (i : Int) acc := by
  intro todo
  induction todo with
  | zero => intro i acc _; rfl
  | succ todo ih =>
    intro i acc h
    have hc : ((i : Int) + 1) = ((i + 1 : Nat) : Int) := by omega
    unfold extrudeLoop
    rw [extrudeVert_take sqrt verts n i (by omega)]
    cases extrudeVert sqrt (n : Int) verts (i : Int) with
    | none => rfl
    | some e =>
      simp only [Option.bind_eq_bind, Option.some_bind]
      rw [hc]
      exact ih (i + 1) (acc ++ [e]) (by omega)

theorem pairOps_take (radius : K) (verts : List (Vector K)) (extrude : List (ExtrudeVerts K))
    (n i j : Nat) (hi : i < n) (hj : j < n) :
    pairOps radius (verts.take n) extrude (i : Int) (j : Int)
      = pairOps radius verts extrude (i : Int) (j : Int) := by
  unfold pairOps
  rw [index_take verts n i hi, index_take verts n j hj]

theorem polyLoop_take (radius : K) (verts : List (Vector K)) (extrude : List (ExtrudeVerts K))
    (n : Nat) :
    ∀ (todo i j : Nat) (path : List (PathOp K)), i + todo ≤ n → j < n →
      polyLoop radius (verts.take n) extrude todo (i : Int) (j : Int) path
        = polyLoop radius verts extrude todo (i : Int) (j : Int) path := by
  intro todo
  induction todo with
  | zero => intro i j path _ _; rfl
  | succ todo ih =>
    intro i j path h hj
    have hc : ((i : Int) + 1) = ((i + 1 : Nat) : Int) := by omega
    unfold polyLoop
    rw [pairOps_take radius verts extrude n i j (by omega) hj]
    cases pairOps radius verts extrude (i : Int) (j : Int) with
    | none => rfl
    | some ops =>
      simp only [Option.bind_eq_bind, Option.some_bind]
      rw [hc]
      exact ih (i + 1) i (path ++ ops) (by omega) (by omega)

theorem extrudeAll_take (sqrt : K → K) (verts : List (Vector K)) (n : Nat) :
    extrudeAll sqrt (n : Int) (verts.take n) = extrudeAll sqrt (n : Int) verts := by
  unfold extrudeAll
  rw [if_neg (by omega), if_neg (by omega), Int.toNat_natCast]
  exact extrudeLoop_take sqrt verts n n 0 [] (by omega)

/-- With `1 ≤ count`, `DrawPolygon` reads only the first `count` entries of
`verts`. -/
theorem DrawPolygon_take (sqrt : K → K) (verts : List (Vector K)) (radius : K) (n : Nat)
    (hn : 1 ≤ n) :
    DrawPolygon sqrt (n : Int) (verts.take n) radius
      = DrawPolygon sqrt (n : Int) verts radius := by
  have hj : ((n : Int) - 1) = ((n - 1 : Nat) : Int) := by omega
  unfold DrawPolygon
  rw [extrudeAll_take, Int.toNat_natCast, hj]
  cases extrudeAll sqrt (n : Int) verts with
  | none => rfl
  | some extrude =>
    simp only [Option.bind_eq_bind, Option.some_bind]
    have h := polyLoop_take radius verts extrude n n 0 (n - 1) [] (by omega) (by omega)
    rw [Nat.cast_zero] at h
    rw [h]

/-- C20: for `1 ≤ count ≤ len(verts)` every index `DrawPolygon` computes,
`(i-1+count) % count`, `i`, `(i+1) % count` for `0 ≤ i < count` and the
start `count - 1` of `j`, lies in `[0, count)`, and `DrawPolygon` returns a
path: no read of `verts` or `extrude` is out of range.  With `count = 0` it
returns the path of the single command `Close` whatever `verts` is, also for
the empty `verts`, where any read would be out of range. -/
theorem DrawPolygon_in_range (sqrt : K → K) (verts : List (Vector K)) (radius : K) :
    (∀ count : Int, 1 ≤ count → count ≤ (verts.length : Int) →
      (∀ i : Int, 0 ≤ i → i < count →
        0 ≤ (i - 1 + count).tmod count ∧ (i - 1 + count).tmod count < count ∧
        0 ≤ (i + 1).tmod count ∧ (i + 1).tmod count < count) ∧
      0 ≤ count - 1 ∧ count - 1 < count ∧
      ∃ path : List (PathOp K), DrawPolygon sqrt count verts radius = some path ∧
        path.length = 3 * count.toNat + 1) ∧
    DrawPolygon sqrt 0 verts radius = some [.Close] ∧
    DrawPolygon sqrt 0 ([] : List (Vector K)) radius = some [.Close] := by
  refine ⟨?_, rfl, rfl⟩
  intro count h1 hlen
  refine ⟨?_, by omega, by omega, ?_⟩
  · intro i hi0 hic
    have hc0 : (0 : Int) ≤ count := by omega
    rw [Int.tmod_eq_emod (by omega) hc0, Int.tmod_eq_emod (by omega) hc0]
    exact ⟨Int.emod_nonneg _ (by omega), Int.emod_lt_of_pos _ (by omega),
      Int.emod_nonneg _ (by omega), Int.emod_lt_of_pos _ (by omega)⟩
  · obtain ⟨n, rfl⟩ : ∃ n : Nat, count = (n : Int) := ⟨count.toNat, by omega⟩
    have hn : 1 ≤ n := by omega
    have hlen' : n ≤ verts.length := by omega
    have htake : (verts.take n).length = n := by
      rw [List.length_take]
      omega
    have h := DrawPolygon_eq sqrt (verts.take n) radius
    rw [htake, DrawPolygon_take sqrt verts radius n hn] at h
    refine ⟨_, h, ?_⟩
    rw [List.length_append, flatMap_range_length _ (roundPath_length sqrt _ radius),
      Int.toNat_natCast]
    rfl

/-- Witness of C20: the right triangle with `count = 2` and `count = 3`. -/
theorem DrawPolygon_in_range_witness :
    (∃ path : List (PathOp ℝ), DrawPolygon Real.sqrt 2 triangle345 1 = some path ∧
      path.length = 3 * (2 : Int).toNat + 1) ∧
    (∃ path : List (PathOp ℝ), DrawPolygon Real.sqrt 3 triangle345 1 = some path ∧
      path.length = 3 * (3 : Int).toNat + 1) :=
  ⟨((DrawPolygon_in_range Real.sqrt triangle345 1).1 2 (by decide) (by decide)).2.2.2,
   ((DrawPolygon_in_range Real.sqrt triangle345 1).1 3 (by decide) (by decide)).2.2.2⟩

end PolygonIndices

/-! ## The drag handler -/

section HandlerLemmas

variable {K : Type} [LinearOrderedField K]

omit [LinearOrderedField K] in
theorem Space.containsConstraint_eq_false (space : Space K) (j : Constraint K)
    (h : ∀ c ∈ space.constraints, c.ref ≠ j.ref) : space.ContainsConstraint j = false := by
  unfold Space.ContainsConstraint
  rw [List.any_eq_false]
  intro c hc
  simpa using h c hc

/-- The joint `onMouseDown` creates: lines 393-395. -/
theorem onMouseDown_hit (WorldToLocal : Body K → Vector K → Vector K) (w : World K)
    (cursorPosition : Option (Vector K)) (mb : Body K) (shape : Shape K)
    (hbody : w.h.mouseBody = some mb)
    (hfresh : ∀ c ∈ w.space.constraints, c.ref < w.next)
    (hshape : (w.space.PointQueryNearest cursorPosition 5 grabFilter).Shape = some shape)
    (hmass : shape.body.m < INFINITY) :
    ∃ joint : Constraint K, joint.ref = w.next ∧
      onMouseDown WorldToLocal w cursorPosition
        = some { h := { w.h with mouseJoint := some joint },
                 space := { w.space with constraints := w.space.constraints ++ [joint] },
                 next := w.next + 1 } := by
  refine ⟨((NewPivotJoint2 w.next w.h.mouseBody (some shape.body) (some ⟨0, 0⟩)
    ((if (w.space.PointQueryNearest cursorPosition 5 grabFilter).Distance > 0
        then some (w.space.PointQueryNearest cursorPosition 5 grabFilter).Point
        else cursorPosition).map (WorldToLocal shape.body))).SetMaxForce 50000).SetErrorBias
      ((1 - 15 / 100) ^ 60), rfl, ?_⟩
  have hc : w.space.ContainsConstraint
      (((NewPivotJoint2 w.next w.h.mouseBody (some shape.body) (some ⟨0, 0⟩)
        ((if (w.space.PointQueryNearest cursorPosition 5 grabFilter).Distance > 0
            then some (w.space.PointQueryNearest cursorPosition 5 grabFilter).Point
            else cursorPosition).map (WorldToLocal shape.body))).SetMaxForce 50000).SetErrorBias
          ((1 - 15 / 100) ^ 60)) = false :=
    Space.containsConstraint_eq_false _ _ fun c hc => Nat.ne_of_lt (hfresh c hc)
  unfold onMouseDown
  simp only [hshape, hmass, if_true]
  unfold Space.AddConstraint
  rw [hc]
  simp [NewPivotJoint2, Constraint.SetMaxForce, Constraint.SetErrorBias, hbody]

omit [LinearOrderedField K] in
/-- The release of a joint that is the last entry of the constraint list. -/
theorem onMouseUp_last (w : World K) (joint : Constraint K) (cs : List (Constraint K))
    (hjoint : w.h.mouseJoint = some joint) (hcs : w.space.constraints = cs ++ [joint])
    (hfresh : ∀ c ∈ cs, c.ref ≠ joint.ref) :
    onMouseUp w = some { w with space := { w.space with constraints := cs },
                                h := { w.h with mouseJoint := none } } := by
  have hc : w.space.ContainsConstraint joint = true := by
    unfold Space.ContainsConstraint
    rw [hcs]
    simp
  have he : (cs ++ [joint]).eraseP (fun c' => c'.ref == joint.ref) = cs := by
    rw [List.eraseP_append_right _ (by simpa using hfresh)]
    simp
  unfold onMouseUp
  simp only [hjoint]
  unfold Space.RemoveConstraint
  rw [hc, hcs, he]
  rfl

theorem sample_cursor :
    ScreenToWorld (⟨800, 300⟩ : Vector ℚ) GeoM.zero ⟨⟨0, 0⟩⟩ false 800 600
      = some ⟨400, 0⟩ := by
  simp [ScreenToWorld, GeoM.IsInvertible, GeoM.det2x2, flipFactor, GeoM.Apply, GeoM.Scale,
    GeoM.Translate, GeoM.Concat, GeoM.Invert, GeoM.zero]
  norm_num

theorem sample_mass : (1 : ℚ) < INFINITY := by
  unfold INFINITY
  norm_num

end HandlerLemmas

section HandlerTheorems

variable {K : Type} [LinearOrderedField K]

/-- C9 fails on the code.  In the sample scene the touch 1 is pressed on the
shape: the handler holds the joint at address 3 and the space contains it.
While that drag is active the touch 2 is pressed on the shape: the handler
now holds a new joint, at address 4, and the space contains both.  When the
touch 2 is released the handler holds nothing and the joint at address 3 is
still in the space. -/
theorem second_touch_adds_constraint :
    (HandleMouseEvent sampleToLocal (touchPressed 1) sampleDrawer sampleWorld).map
        (fun w => (w.h.mouseJoint.map (·.ref), w.space.constraints.map (·.ref), w.h.touchIDs))
      = some (some 3, [3], [1]) ∧
    ((HandleMouseEvent sampleToLocal (touchPressed 1) sampleDrawer sampleWorld).bind
        (HandleMouseEvent sampleToLocal (touchPressed 2) sampleDrawer)).map
        (fun w => (w.h.mouseJoint.map (·.ref), w.space.constraints.map (·.ref), w.h.touchIDs))
      = some (some 4, [3, 4], [2]) ∧
    (((HandleMouseEvent sampleToLocal (touchPressed 1) sampleDrawer sampleWorld).bind
        (HandleMouseEvent sampleToLocal (touchPressed 2) sampleDrawer)).bind
        (HandleMouseEvent sampleToLocal (touchReleased 2) sampleDrawer)).map
        (fun w => (w.h.mouseJoint.map (·.ref), w.space.constraints.map (·.ref), w.h.touchIDs))
      = some (none, [3], []) := by
  refine ⟨?_, ?_, ?_⟩ <;>
    simp [HandleMouseEvent, handleMouseEvent, sampleWorld, touchPressed, touchReleased,
      sampleDrawer, touchLoop, sample_cursor, onMouseDown, onMouseUp, sampleQuery, sampleBody,
      sample_mass, NewKinematicBody, Body.SetPosition, Body.SetVelocityVector, NewPivotJoint2,
      Constraint.SetMaxForce, Constraint.SetErrorBias, Space.AddConstraint,
      Space.RemoveConstraint, Space.ContainsConstraint, grabFilter]

/-- C10: from a state with no joint held (and the anchor body in place, as it
is whenever `handleMouseEvent` calls `onMouseDown`, and every constraint of
the space at an address the allocator has handed out), a press at a point where
the query finds a shape of finite mass returns a state that holds a new joint
and whose constraint list is the old one with that joint appended; the release
that follows removes that joint, holds nothing, and leaves the constraint list
of before the press. -/
theorem press_then_release (WorldToLocal : Body K → Vector K → Vector K) (w : World K)
    (cursorPosition : Option (Vector K)) (mb : Body K) (shape : Shape K)
    (hidle : w.h.mouseJoint = none) (hbody : w.h.mouseBody = some mb)
    (hfresh : ∀ c ∈ w.space.constraints, c.ref < w.next)
    (hshape : (w.space.PointQueryNearest cursorPosition 5 grabFilter).Shape = some shape)
    (hmass : shape.body.m < INFINITY) :
    ∃ (w1 : World K) (joint : Constraint K),
      onMouseDown WorldToLocal w cursorPosition = some w1 ∧
      w1.h.mouseJoint = some joint ∧
      w1.space.constraints = w.space.constraints ++ [joint] ∧
      (∀ c ∈ w.space.constraints, c.ref ≠ joint.ref) ∧
      ∃ w2 : World K, onMouseUp w1 = some w2 ∧ w2.h = w.h ∧
        w2.space.constraints = w.space.constraints := by
  obtain ⟨joint, href, hdown⟩ :=
    onMouseDown_hit WorldToLocal w cursorPosition mb shape hbody hfresh hshape hmass
  have hne : ∀ c ∈ w.space.constraints, c.ref ≠ joint.ref := fun c hc =>
    href ▸ Nat.ne_of_lt (hfresh c hc)
  refine ⟨_, joint, hdown, rfl, rfl, hne, ?_⟩
  refine ⟨_, onMouseUp_last _ joint w.space.constraints rfl rfl hne, ?_, rfl⟩
  obtain ⟨h, space, next⟩ := w
  obtain ⟨mj, mbo, ids⟩ := h
  simp only at hidle
  simp [hidle]

/-- Witness of C10: the sample scene after the anchor body is allocated, with
a press at the world point `(400, 0)`. -/
theorem press_then_release_witness :
    ∃ (w1 : World ℚ) (joint : Constraint ℚ),
      onMouseDown sampleToLocal
          { sampleWorld with
            h := { sampleWorld.h with mouseBody := some (NewKinematicBody 2) }, next := 3 }
          (some ⟨400, 0⟩) = some w1 ∧
      w1.h.mouseJoint = some joint ∧
      w1.space.constraints = sampleWorld.space.constraints ++ [joint] ∧
      (∀ c ∈ sampleWorld.space.constraints, c.ref ≠ joint.ref) ∧
      ∃ w2 : World ℚ, onMouseUp w1 = some w2 ∧
        w2.h = { sampleWorld.h with mouseBody := some (NewKinematicBody 2) } ∧
        w2.space.constraints = sampleWorld.space.constraints :=
  press_then_release sampleToLocal
    { sampleWorld with
      h := { sampleWorld.h with mouseBody := some (NewKinematicBody 2) }, next := 3 }
    (some ⟨400, 0⟩) (NewKinematicBody 2) ⟨sampleBody⟩ rfl rfl
    (by simp [sampleWorld]) (by simp [sampleWorld, sampleQuery])
    (by simpa [sampleBody] using sample_mass)

end HandlerTheorems

/-! ## The drag handler: the parts of an update -/

section HandlerStages

variable {K : Type} [LinearOrderedField K]

/-- An update is the move of the pointer followed by the press and release. -/
theorem handleMouseEvent_eq (WorldToLocal : Body K → Vector K → Vector K) (inp : Input)
    (d : Drawer K) (w : World K) (W H : Int) :
    handleMouseEvent WorldToLocal inp d w W H
      = (movePointer inp d w W H).bind fun w3 =>
          pressRelease WorldToLocal inp w3 (pointerWorld inp d w.h.touchIDs W H) := by
  obtain ⟨⟨mj, mb, ids⟩, space, next⟩ := w
  rcases hl : touchLoop inp ids (0, 0) with ⟨xy, released⟩
  cases mb with
  | none =>
    rcases hu : onMouseUp
        (⟨⟨mj, some (NewKinematicBody next), ids⟩, space, next + 1⟩ : World K)
      with _ | ⟨⟨mj', mb', ids'⟩, sp', nx'⟩
    · cases released <;> cases hj : inp.JustPressedTouchIDs <;>
        simp only [handleMouseEvent, movePointer, pressRelease, pointerWorld, pointerScreen,
          isJuestTouched, ensureBody, hl, hj, hu] <;>
        simp [moveAnchor]
    · cases mb' <;> cases released <;> cases hj : inp.JustPressedTouchIDs <;>
        simp only [handleMouseEvent, movePointer, pressRelease, pointerWorld, pointerScreen,
          isJuestTouched, ensureBody, hl, hj, hu] <;>
        simp [moveAnchor]
  | some b =>
    rcases hu : onMouseUp (⟨⟨mj, some b, ids⟩, space, next⟩ : World K)
      with _ | ⟨⟨mj', mb', ids'⟩, sp', nx'⟩
    · cases released <;> cases hj : inp.JustPressedTouchIDs <;>
        simp only [handleMouseEvent, movePointer, pressRelease, pointerWorld, pointerScreen,
          isJuestTouched, ensureBody, hl, hj, hu] <;>
        simp [moveAnchor]
    · cases mb' <;> cases released <;> cases hj : inp.JustPressedTouchIDs <;>
        simp only [handleMouseEvent, movePointer, pressRelease, pointerWorld, pointerScreen,
          isJuestTouched, ensureBody, hl, hj, hu] <;>
        simp [moveAnchor]

theorem pressRelease_eq (WorldToLocal : Body K → Vector K → Vector K) (inp : Input)
    (w : World K) (cursorPosition : Option (Vector K)) :
    pressRelease WorldToLocal inp w cursorPosition
      = (if (inp.IsMouseButtonJustPressed || isJuestTouched inp) = true then
          onMouseDown WorldToLocal w cursorPosition else some w).bind fun w4 =>
        if inp.IsMouseButtonJustReleased = true then onMouseUp w4 else some w4 := by
  unfold pressRelease
  by_cases hp : (inp.IsMouseButtonJustPressed || isJuestTouched inp) = true
  · simp only [hp, if_true]
    rfl
  · simp only [hp, if_false]
    rfl

end HandlerStages

section HandlerSound

variable {K : Type} [LinearOrderedField K]

theorem onMouseDown_none (WorldToLocal : Body K → Vector K → Vector K) (w : World K)
    (cursorPosition : Option (Vector K))
    (h : (w.space.PointQueryNearest cursorPosition 5 grabFilter).Shape = none) :
    onMouseDown WorldToLocal w cursorPosition = some w := by
  unfold onMouseDown
  simp only [h]

theorem onMouseDown_heavy (WorldToLocal : Body K → Vector K → Vector K) (w : World K)
    (cursorPosition : Option (Vector K)) (shape : Shape K)
    (h : (w.space.PointQueryNearest cursorPosition 5 grabFilter).Shape = some shape)
    (hm : ¬ shape.body.m < INFINITY) :
    onMouseDown WorldToLocal w cursorPosition = some w := by
  unfold onMouseDown
  simp only [h, hm, if_false]

/-- A press that finds a shape of finite mass: the joint of lines 385-395 is
held and appended to the constraint list. -/
theorem onMouseDown_press (WorldToLocal : Body K → Vector K → Vector K) (w : World K)
    (cursorPosition : Option (Vector K)) (mb : Body K) (shape : Shape K)
    (hbody : w.h.mouseBody = some mb)
    (hfresh : ∀ c ∈ w.space.constraints, c.ref < w.next)
    (hshape : (w.space.PointQueryNearest cursorPosition 5 grabFilter).Shape = some shape)
    (hmass : shape.body.m < INFINITY) :
    onMouseDown WorldToLocal w cursorPosition
      = some { h := { w.h with mouseJoint := some (pressJoint WorldToLocal w cursorPosition
                  (w.space.PointQueryNearest cursorPosition 5 grabFilter) shape.body) },
               space := { w.space with constraints := w.space.constraints ++
                 [pressJoint WorldToLocal w cursorPosition
                  (w.space.PointQueryNearest cursorPosition 5 grabFilter) shape.body] },
               next := w.next + 1 } := by
  have hc : w.space.ContainsConstraint (pressJoint WorldToLocal w cursorPosition
      (w.space.PointQueryNearest cursorPosition 5 grabFilter) shape.body) = false :=
    Space.containsConstraint_eq_false _ _ fun c hc => Nat.ne_of_lt (hfresh c hc)
  unfold onMouseDown
  simp only [hshape, hmass, if_true]
  unfold Space.AddConstraint
  unfold pressJoint at hc ⊢
  rw [hc]
  simp [NewPivotJoint2, Constraint.SetMaxForce, Constraint.SetErrorBias, hbody]

theorem pressJoint_ref (WorldToLocal : Body K → Vector K → Vector K) (w : World K)
    (cursorPosition : Option (Vector K)) (info : PointQueryInfo K) (body : Body K) :
    (pressJoint WorldToLocal w cursorPosition info body).ref = w.next := rfl

omit [LinearOrderedField K] in
theorem onMouseUp_sound (w : World K) (hs : w.Sound) :
    ∃ w', onMouseUp w = some w' ∧ w'.Sound ∧ w'.h.mouseJoint = none ∧
      w'.h.mouseBody = w.h.mouseBody ∧ w'.h.touchIDs = w.h.touchIDs := by
  obtain ⟨⟨mj, mb, ids⟩, space, next⟩ := w
  obtain ⟨hfresh, hheld⟩ := hs
  cases mj with
  | none => exact ⟨_, rfl, ⟨hfresh, hheld⟩, rfl, rfl, rfl⟩
  | some j =>
    have hj : j ∈ space.constraints := hheld j rfl
    have hc : space.ContainsConstraint j = true := by
      unfold Space.ContainsConstraint
      rw [List.any_eq_true]
      exact ⟨j, hj, by simp⟩
    have hup : onMouseUp (⟨⟨some j, mb, ids⟩, space, next⟩ : World K)
        = some ⟨⟨none, mb, ids⟩,
            ⟨space.constraints.eraseP (fun c' => c'.ref == j.ref), space.PointQueryNearest⟩,
            next⟩ := by
      simp only [onMouseUp, Space.RemoveConstraint, hc, if_true]
      rfl
    refine ⟨_, hup, ⟨fun c hc' => hfresh c ?_, fun _ h => by simp at h⟩, rfl, rfl, rfl⟩
    exact List.mem_of_mem_eraseP hc'

theorem onMouseDown_sound (WorldToLocal : Body K → Vector K → Vector K) (w : World K)
    (cursorPosition : Option (Vector K)) (hs : w.Sound) (mb : Body K)
    (hb : w.h.mouseBody = some mb) :
    ∃ w', onMouseDown WorldToLocal w cursorPosition = some w' ∧ w'.Sound ∧
      w'.h.mouseBody = w.h.mouseBody ∧ w'.h.touchIDs = w.h.touchIDs := by
  rcases hq : (w.space.PointQueryNearest cursorPosition 5 grabFilter).Shape with _ | shape
  · exact ⟨w, onMouseDown_none WorldToLocal w cursorPosition hq, hs, rfl, rfl⟩
  · by_cases hm : shape.body.m < INFINITY
    · refine ⟨_, onMouseDown_press WorldToLocal w cursorPosition mb shape hb hs.1 hq hm,
        ⟨?_, ?_⟩, rfl, rfl⟩
      · intro c hc
        rcases List.mem_append.1 hc with h | h
        · exact Nat.lt_succ_of_lt (hs.1 c h)
        · rw [List.mem_singleton.1 h, pressJoint_ref]
          exact Nat.lt_succ_self _
      · intro j hj
        simp only [Option.some.injEq] at hj
        rw [← hj]
        exact List.mem_append_right _ (List.mem_singleton_self _)
    · exact ⟨w, onMouseDown_heavy WorldToLocal w cursorPosition shape hq hm, hs, rfl, rfl⟩

theorem ensureBody_sound (w : World K) (hs : w.Sound) :
    (ensureBody w).Sound ∧ (ensureBody w).h.mouseBody = some (anchorBefore w) ∧
      (ensureBody w).h.touchIDs = w.h.touchIDs := by
  obtain ⟨⟨mj, mb, ids⟩, space, next⟩ := w
  cases mb with
  | none =>
    exact ⟨⟨fun c hc => Nat.lt_succ_of_lt (hs.1 c hc), hs.2⟩, rfl, rfl⟩
  | some b => exact ⟨hs, rfl, rfl⟩

theorem movePointer_sound (inp : Input) (d : Drawer K) (w : World K) (W H : Int)
    (hs : w.Sound) :
    ∃ w3, movePointer inp d w W H = some w3 ∧ w3.Sound ∧
      w3.h.mouseBody = some (moveAnchor (anchorBefore w)
        (pointerWorld inp d w.h.touchIDs W H) (isJuestTouched inp)) := by
  obtain ⟨hs0, hb0, _⟩ := ensureBody_sound w hs
  unfold movePointer
  by_cases hr : (touchLoop inp (ensureBody w).h.touchIDs (0, 0)).2 = true
  · obtain ⟨w', hup, hs', _, hb', _⟩ := onMouseUp_sound (ensureBody w) hs0
    simp only [hr, if_true, hup, Option.map_some', Option.bind_eq_bind, Option.some_bind,
      hb', hb0]
    exact ⟨_, rfl, ⟨hs'.1, hs'.2⟩, rfl⟩
  · simp only [hr, if_false, Option.bind_eq_bind, Option.some_bind, hb0]
    exact ⟨_, rfl, ⟨hs0.1, hs0.2⟩, rfl⟩

theorem pressRelease_sound (WorldToLocal : Body K → Vector K → Vector K) (inp : Input)
    (w : World K) (cursorPosition : Option (Vector K)) (hs : w.Sound) (mb : Body K)
    (hb : w.h.mouseBody = some mb) :
    ∃ w', pressRelease WorldToLocal inp w cursorPosition = some w' ∧ w'.Sound ∧
      w'.h.mouseBody = some mb := by
  rw [pressRelease_eq]
  have hdown : ∃ w4, (if (inp.IsMouseButtonJustPressed || isJuestTouched inp) = true then
      onMouseDown WorldToLocal w cursorPosition else some w) = some w4 ∧ w4.Sound ∧
      w4.h.mouseBody = some mb := by
    by_cases hp : (inp.IsMouseButtonJustPressed || isJuestTouched inp) = true
    · obtain ⟨w4, h4, hs4, hb4, _⟩ := onMouseDown_sound WorldToLocal w cursorPosition hs mb hb
      exact ⟨w4, by rw [if_pos hp, h4], hs4, hb4.trans hb⟩
    · exact ⟨w, by rw [if_neg hp], hs, hb⟩
  obtain ⟨w4, h4, hs4, hb4⟩ := hdown
  rw [h4, Option.some_bind]
  by_cases hrel : inp.IsMouseButtonJustReleased = true
  · obtain ⟨w5, h5, hs5, _, hb5, _⟩ := onMouseUp_sound w4 hs4
    exact ⟨w5, by rw [if_pos hrel, h5], hs5, hb5.trans hb4⟩
  · exact ⟨w4, by rw [if_neg hrel], hs4, hb4⟩

/-- From a sound state an update returns, in a sound state, with the anchor
body moved as in lines 361-368. -/
theorem handleMouseEvent_sound (WorldToLocal : Body K → Vector K → Vector K) (inp : Input)
    (d : Drawer K) (w : World K) (W H : Int) (hs : w.Sound) :
    ∃ w', handleMouseEvent WorldToLocal inp d w W H = some w' ∧ w'.Sound ∧
      w'.h.mouseBody = some (moveAnchor (anchorBefore w)
        (pointerWorld inp d w.h.touchIDs W H) (isJuestTouched inp)) := by
  obtain ⟨w3, h3, hs3, hb3⟩ := movePointer_sound inp d w W H hs
  obtain ⟨w', h', hs', hb'⟩ := pressRelease_sound WorldToLocal inp w3
    (pointerWorld inp d w.h.touchIDs W H) hs3 _ hb3
  refine ⟨w', ?_, hs', hb'⟩
  rw [handleMouseEvent_eq, h3]
  exact h'

end HandlerSound

section HandlerClaims

variable {K : Type} [LinearOrderedField K]

theorem isJuestTouched_eq_true_iff (inp : Input) :
    isJuestTouched inp = true ↔ inp.JustPressedTouchIDs ≠ [] := by
  unfold isJuestTouched
  cases inp.JustPressedTouchIDs <;> simp

theorem Vector.lerp_eq (old c : Vector K) (t : K) :
    old.Lerp c t = old.Add ((c.Sub old).Mult t) := by
  simp only [Vector.Lerp, Vector.Add, Vector.Mult, Vector.Sub, Vector.mk.injEq]
  constructor <;> ring

theorem moveAnchor_touched (mb : Body K) (cursorPosition : Option (Vector K)) :
    (moveAnchor mb cursorPosition true).p = cursorPosition ∧
      (moveAnchor mb cursorPosition true).v = some ⟨0, 0⟩ ∧
      (moveAnchor mb cursorPosition true).ref = mb.ref :=
  ⟨rfl, rfl, rfl⟩

theorem moveAnchor_lerp (mb : Body K) (old c : Vector K) (hold : mb.p = some old) :
    (moveAnchor mb (some c) false).p = some (old.Add ((c.Sub old).Mult (25 / 100))) ∧
      (moveAnchor mb (some c) false).v
        = some (((old.Add ((c.Sub old).Mult (25 / 100))).Sub old).Mult 60) := by
  simp [moveAnchor, hold, Body.SetPosition, Body.SetVelocityVector, Vector.lerp_eq]

theorem moveAnchor_ref (mb : Body K) (cursorPosition : Option (Vector K)) (touched : Bool) :
    (moveAnchor mb cursorPosition touched).ref = mb.ref := by
  cases touched <;> rfl

theorem sampleWorld_sound : sampleWorld.Sound :=
  ⟨fun c hc => by simp [sampleWorld] at hc, fun j hj => by simp [sampleWorld] at hj⟩

/-- C11: when the query finds no shape, or finds a shape whose body does not
have a mass below `cp.INFINITY`, `onMouseDown` returns the state it was given:
constraint list, held joint and every other field are unchanged. -/
theorem press_without_target (WorldToLocal : Body K → Vector K → Vector K) (w : World K)
    (cursorPosition : Option (Vector K))
    (h : (w.space.PointQueryNearest cursorPosition 5 grabFilter).Shape = none ∨
      ∃ shape, (w.space.PointQueryNearest cursorPosition 5 grabFilter).Shape = some shape ∧
        INFINITY ≤ shape.body.m) :
    onMouseDown WorldToLocal w cursorPosition = some w := by
  rcases h with h | ⟨shape, h, hm⟩
  · exact onMouseDown_none WorldToLocal w cursorPosition h
  · exact onMouseDown_heavy WorldToLocal w cursorPosition shape h (not_lt.2 hm)

/-- Witness of C11: in the sample scene a press at the world origin, far from
the shape, finds nothing. -/
theorem press_without_target_witness :
    ((sampleWorld.space.PointQueryNearest (some ⟨0, 0⟩) 5 grabFilter).Shape = none ∨
      ∃ shape, (sampleWorld.space.PointQueryNearest (some ⟨0, 0⟩) 5 grabFilter).Shape
          = some shape ∧ INFINITY ≤ shape.body.m) ∧
    onMouseDown sampleToLocal sampleWorld (some ⟨0, 0⟩) = some sampleWorld :=
  have h : (sampleWorld.space.PointQueryNearest (some ⟨0, 0⟩) 5 grabFilter).Shape = none ∨
      ∃ shape, (sampleWorld.space.PointQueryNearest (some ⟨0, 0⟩) 5 grabFilter).Shape
          = some shape ∧ INFINITY ≤ shape.body.m :=
    Or.inl (by simp [sampleWorld, sampleQuery]; norm_num)
  ⟨h, press_without_target sampleToLocal sampleWorld (some ⟨0, 0⟩) h⟩

/-- C16: `onMouseUp` called while no joint is held returns the state it was
given: the constraint list and every handler field are unchanged. -/
theorem release_without_drag (w : World K) (h : w.h.mouseJoint = none) :
    onMouseUp w = some w := by
  unfold onMouseUp
  simp only [h]

/-- Witness of C16: the sample scene at the start. -/
theorem release_without_drag_witness :
    sampleWorld.h.mouseJoint = none ∧ onMouseUp sampleWorld = some sampleWorld :=
  ⟨rfl, release_without_drag sampleWorld rfl⟩

/-- C19: on a press that finds a shape of finite mass, the joint that is held
and added to the space joins the anchor body and the body of the shape; its
anchor on the anchor body is the local origin, and its anchor on the grabbed
body is the body-local image of the nearest point of the query when the
distance is positive, of the pointer position otherwise. -/
theorem press_attachment_points (WorldToLocal : Body K → Vector K → Vector K) (w : World K)
    (cursorPosition : Option (Vector K)) (mb : Body K) (shape : Shape K)
    (hbody : w.h.mouseBody = some mb)
    (hfresh : ∀ c ∈ w.space.constraints, c.ref < w.next)
    (hshape : (w.space.PointQueryNearest cursorPosition 5 grabFilter).Shape = some shape)
    (hmass : shape.body.m < INFINITY) :
    ∃ (w1 : World K) (joint : Constraint K),
      onMouseDown WorldToLocal w cursorPosition = some w1 ∧
      w1.h.mouseJoint = some joint ∧ joint ∈ w1.space.constraints ∧
      joint.a = some mb.ref ∧ joint.b = some shape.body.ref ∧
      joint.anchorA = some ⟨0, 0⟩ ∧
      (0 < (w.space.PointQueryNearest cursorPosition 5 grabFilter).Distance →
        joint.anchorB = some (WorldToLocal shape.body
          (w.space.PointQueryNearest cursorPosition 5 grabFilter).Point)) ∧
      ((w.space.PointQueryNearest cursorPosition 5 grabFilter).Distance ≤ 0 →
        joint.anchorB = cursorPosition.map (WorldToLocal shape.body)) := by
  refine ⟨_, _, onMouseDown_press WorldToLocal w cursorPosition mb shape hbody hfresh hshape
    hmass, rfl, List.mem_append_right _ (List.mem_singleton_self _), ?_, rfl, rfl, ?_, ?_⟩
  · simp [pressJoint, NewPivotJoint2, Constraint.SetMaxForce, Constraint.SetErrorBias, hbody]
  · intro hd
    simp [pressJoint, NewPivotJoint2, Constraint.SetMaxForce, Constraint.SetErrorBias, hd]
  · intro hd
    simp [pressJoint, NewPivotJoint2, Constraint.SetMaxForce, Constraint.SetErrorBias,
      not_lt.2 hd]

/-- Witness of C19: the sample scene with the anchor body allocated, and a
press at the world point `(403, 0)`, inside the shape. -/
theorem press_attachment_points_witness :
    ∃ (w1 : World ℚ) (joint : Constraint ℚ),
      onMouseDown sampleToLocal
          { sampleWorld with
            h := { sampleWorld.h with mouseBody := some (NewKinematicBody 2) }, next := 3 }
          (some ⟨403, 0⟩) = some w1 ∧
      w1.h.mouseJoint = some joint ∧ joint ∈ w1.space.constraints ∧
      joint.a = some (NewKinematicBody 2 : Body ℚ).ref ∧
      joint.b = some (⟨sampleBody⟩ : Shape ℚ).body.ref ∧
      joint.anchorA = some ⟨0, 0⟩ ∧
      (0 < (sampleQuery (some ⟨403, 0⟩) 5 grabFilter).Distance →
        joint.anchorB = some (sampleToLocal (⟨sampleBody⟩ : Shape ℚ).body
          (sampleQuery (some ⟨403, 0⟩) 5 grabFilter).Point)) ∧
      ((sampleQuery (some ⟨403, 0⟩) 5 grabFilter).Distance ≤ 0 →
        joint.anchorB
          = (some ⟨403, 0⟩ : Option (Vector ℚ)).map
              (sampleToLocal (⟨sampleBody⟩ : Shape ℚ).body)) :=
  press_attachment_points sampleToLocal
    { sampleWorld with
      h := { sampleWorld.h with mouseBody := some (NewKinematicBody 2) }, next := 3 }
    (some ⟨403, 0⟩) (NewKinematicBody 2) ⟨sampleBody⟩ rfl
    (by simp [sampleWorld]) (by simp [sampleWorld, sampleQuery]; norm_num)
    (by simpa [sampleBody] using sample_mass)

end HandlerClaims

section HandlerClaims2

variable {K : Type} [LinearOrderedField K]

omit [LinearOrderedField K] in
theorem Sound_of_query (w : World K)
    (q : Option (Vector K) → K → ShapeFilter → PointQueryInfo K) (hs : w.Sound) :
    World.Sound { w with space := { w.space with PointQueryNearest := q } } :=
  ⟨hs.1, hs.2⟩

theorem runFrames_sound (WorldToLocal : Body K → Vector K → Vector K) :
    ∀ (frames : List (Frame K)) (w : World K), w.Sound →
      ∃ w', runFrames WorldToLocal frames w = some w' ∧ w'.Sound := by
  intro frames
  induction frames with
  | nil => intro w hs; exact ⟨w, rfl, hs⟩
  | cons f fs ih =>
    intro w hs
    obtain ⟨w1, h1, hs1, _⟩ := handleMouseEvent_sound WorldToLocal f.inp f.d
      { w with space := { w.space with PointQueryNearest := f.query } }
      f.d.ScreenWidth f.d.ScreenHeight (Sound_of_query w f.query hs)
    obtain ⟨w', h', hs'⟩ := ih w1 hs1
    refine ⟨w', ?_, hs'⟩
    unfold runFrames HandleMouseEvent
    rw [h1]
    exact h'

/-- C12: from a sound state an update returns, and the anchor body it leaves
is the anchor body of before (the new one at the origin when there was none)
moved as follows.  When a touch is newly pressed its position is the pointer's
world position and its velocity is zero.  Otherwise, when its old position is
`old` and the pointer's world position is `c`, its new position is
`old + 0.25 * (c - old)` and its velocity is `(new - old) * 60`. -/
theorem anchor_motion (WorldToLocal : Body K → Vector K → Vector K) (inp : Input)
    (d : Drawer K) (w : World K) (W H : Int) (hs : w.Sound) :
    ∃ (w' : World K) (mb' : Body K),
      handleMouseEvent WorldToLocal inp d w W H = some w' ∧ w'.h.mouseBody = some mb' ∧
      mb'.ref = (anchorBefore w).ref ∧
      (inp.JustPressedTouchIDs ≠ [] →
        mb'.p = pointerWorld inp d w.h.touchIDs W H ∧ mb'.v = some ⟨0, 0⟩) ∧
      (inp.JustPressedTouchIDs = [] → ∀ old c : Vector K,
        (anchorBefore w).p = some old → pointerWorld inp d w.h.touchIDs W H = some c →
        mb'.p = some (old.Add ((c.Sub old).Mult (25 / 100))) ∧
        mb'.v = some (((old.Add ((c.Sub old).Mult (25 / 100))).Sub old).Mult 60)) := by
  obtain ⟨w', h', _, hb'⟩ := handleMouseEvent_sound WorldToLocal inp d w W H hs
  refine ⟨w', _, h', hb', moveAnchor_ref _ _ _, ?_, ?_⟩
  · intro ht
    rw [(isJuestTouched_eq_true_iff inp).2 ht]
    exact ⟨rfl, rfl⟩
  · intro ht old c hold hc
    have hf : isJuestTouched inp = false := by
      cases hi : isJuestTouched inp
      · rfl
      · exact absurd ht ((isJuestTouched_eq_true_iff inp).1 hi)
    rw [hf, hc]
    exact moveAnchor_lerp _ old c hold

/-- Witness of C12: the sample scene at the start, with the touch 1 newly pressed. -/
theorem anchor_motion_witness :
    sampleWorld.Sound ∧
    ∃ (w' : World ℚ) (mb' : Body ℚ),
      handleMouseEvent sampleToLocal (touchPressed 1) sampleDrawer sampleWorld 800 600
        = some w' ∧ w'.h.mouseBody = some mb' ∧
      mb'.ref = (anchorBefore sampleWorld).ref ∧
      ((touchPressed 1).JustPressedTouchIDs ≠ [] →
        mb'.p = pointerWorld (touchPressed 1) sampleDrawer sampleWorld.h.touchIDs 800 600 ∧
        mb'.v = some ⟨0, 0⟩) ∧
      ((touchPressed 1).JustPressedTouchIDs = [] → ∀ old c : Vector ℚ,
        (anchorBefore sampleWorld).p = some old →
        pointerWorld (touchPressed 1) sampleDrawer sampleWorld.h.touchIDs 800 600 = some c →
        mb'.p = some (old.Add ((c.Sub old).Mult (25 / 100))) ∧
        mb'.v = some (((old.Add ((c.Sub old).Mult (25 / 100))).Sub old).Mult 60)) :=
  ⟨sampleWorld_sound,
    anchor_motion sampleToLocal (touchPressed 1) sampleDrawer sampleWorld 800 600
      sampleWorld_sound⟩

/-- C13, as the claim states it, fails.  In the sample scene, after one update
in which nothing is pressed the anchor reference is set while no constraint is
held; and after a press of the touch 1 on the shape followed by its release
the constraint reference is cleared and the anchor reference is still set. -/
theorem anchor_reference_counterexample :
    (HandleMouseEvent sampleToLocal idleInput sampleDrawer sampleWorld).map
        (fun w => (w.h.mouseBody.isSome, w.h.mouseJoint.isSome))
      = some (true, false) ∧
    ((HandleMouseEvent sampleToLocal (touchPressed 1) sampleDrawer sampleWorld).bind
        (HandleMouseEvent sampleToLocal (touchReleased 1) sampleDrawer)).map
        (fun w => (w.h.mouseBody.isSome, w.h.mouseJoint.isSome))
      = some (true, false) := by
  refine ⟨?_, ?_⟩ <;>
    simp [HandleMouseEvent, handleMouseEvent, sampleWorld, touchPressed, touchReleased,
      idleInput, sampleDrawer, touchLoop, sample_cursor, onMouseDown, onMouseUp, sampleQuery,
      sampleBody, sample_mass, NewKinematicBody, Body.SetPosition, Body.SetVelocityVector,
      NewPivotJoint2, Constraint.SetMaxForce, Constraint.SetErrorBias, Space.AddConstraint,
      Space.RemoveConstraint, Space.ContainsConstraint, grabFilter]

/-- C13, amended: the anchor body is created by the first update and kept.
From a sound state an update returns a state whose anchor reference is set, to
the body of before when there was one, whether or not a joint is held; and a
release returns a state that holds no joint and has the anchor reference it
had before. -/
theorem anchor_reference_kept (WorldToLocal : Body K → Vector K → Vector K) (inp : Input)
    (d : Drawer K) (w : World K) (W H : Int) (hs : w.Sound) :
    (∃ (w' : World K) (mb' : Body K),
      handleMouseEvent WorldToLocal inp d w W H = some w' ∧ w'.h.mouseBody = some mb' ∧
      mb'.ref = (anchorBefore w).ref) ∧
    (∃ w'' : World K, onMouseUp w = some w'' ∧ w''.h.mouseJoint = none ∧
      w''.h.mouseBody = w.h.mouseBody) := by
  obtain ⟨w', h', _, hb'⟩ := handleMouseEvent_sound WorldToLocal inp d w W H hs
  obtain ⟨w'', h'', _, hj, hb, _⟩ := onMouseUp_sound w hs
  exact ⟨⟨w', _, h', hb', moveAnchor_ref _ _ _⟩, ⟨w'', h'', hj, hb⟩⟩

/-- Witness of C13, amended: the sample scene at the start with an idle update. -/
theorem anchor_reference_kept_witness :
    sampleWorld.Sound ∧
    (∃ (w' : World ℚ) (mb' : Body ℚ),
      handleMouseEvent sampleToLocal idleInput sampleDrawer sampleWorld 800 600 = some w' ∧
      w'.h.mouseBody = some mb' ∧ mb'.ref = (anchorBefore sampleWorld).ref) ∧
    (∃ w'' : World ℚ, onMouseUp sampleWorld = some w'' ∧ w''.h.mouseJoint = none ∧
      w''.h.mouseBody = sampleWorld.h.mouseBody) :=
  ⟨sampleWorld_sound,
    anchor_reference_kept sampleToLocal idleInput sampleDrawer sampleWorld 800 600
      sampleWorld_sound⟩

/-- C14 fails on the code.  In the sample scene with a camera matrix that is
not invertible, an update in which nothing is pressed leaves the anchor body
with an undefined position and an undefined velocity; and they stay undefined
after a further update with the invertible matrix. -/
theorem singular_matrix_reaches_anchor :
    singularDrawer.GeoM.IsInvertible = false ∧
    (HandleMouseEvent sampleToLocal idleInput singularDrawer sampleWorld).map
        (fun w => w.h.mouseBody.map fun b => (b.p, b.v))
      = some (some (none, none)) ∧
    ((HandleMouseEvent sampleToLocal idleInput singularDrawer sampleWorld).bind
        (HandleMouseEvent sampleToLocal idleInput sampleDrawer)).map
        (fun w => w.h.mouseBody.map fun b => (b.p, b.v))
      = some (some (none, none)) := by
  have hsing : ∀ p : Vector ℚ, ScreenToWorld p (GeoM.zero.Scale 0 0) ⟨⟨0, 0⟩⟩ false 800 600
      = none := by
    intro p
    simp [ScreenToWorld, GeoM.IsInvertible, GeoM.det2x2, GeoM.Scale, GeoM.zero]
  refine ⟨?_, ?_, ?_⟩
  · simp [singularDrawer, GeoM.IsInvertible, GeoM.det2x2, GeoM.Scale, GeoM.zero]
  · simp [HandleMouseEvent, handleMouseEvent, sampleWorld, idleInput, singularDrawer,
      sampleDrawer, touchLoop, hsing, onMouseDown, onMouseUp, NewKinematicBody,
      Body.SetPosition, Body.SetVelocityVector]
  · simp [HandleMouseEvent, handleMouseEvent, sampleWorld, idleInput, singularDrawer,
      sampleDrawer, touchLoop, hsing, onMouseDown, onMouseUp, NewKinematicBody,
      Body.SetPosition, Body.SetVelocityVector]

end HandlerClaims2

section HandlerClaims3

variable {K : Type} [LinearOrderedField K]

/-- C15, as the claim states it, fails.  In the sample scene at the start, an
update in which the mouse button is newly pressed over the shape attaches a
constraint, the pointer's world position is `(400, 0)`, and the anchor body
is at `(100, 0)`. -/
theorem mouse_press_anchor_counterexample :
    (HandleMouseEvent sampleToLocal mousePressed sampleDrawer sampleWorld).map
        (fun w => (w.space.constraints.map (·.ref), w.h.mouseJoint.map (·.ref),
          w.h.mouseBody.bind (·.p)))
      = some ([3], some 3, some ⟨100, 0⟩) ∧
    pointerWorld mousePressed sampleDrawer sampleWorld.h.touchIDs 800 600
      = some ⟨400, 0⟩ := by
  refine ⟨?_, ?_⟩
  · simp [HandleMouseEvent, handleMouseEvent, sampleWorld, mousePressed, sampleDrawer,
      touchLoop, sample_cursor, onMouseDown, onMouseUp, sampleQuery, sampleBody, sample_mass,
      NewKinematicBody, Body.SetPosition, Body.SetVelocityVector, NewPivotJoint2,
      Constraint.SetMaxForce, Constraint.SetErrorBias, Space.AddConstraint,
      Space.ContainsConstraint, grabFilter, Vector.Lerp, Vector.Add, Vector.Mult]
    norm_num
  · simp [pointerWorld, pointerScreen, touchLoop, mousePressed, sampleWorld, sampleDrawer,
      sample_cursor]

/-- C15, amended: the press of an update is handled in the state
`movePointer` returns.  In that state the anchor body is at the pointer's
world position when a touch is newly pressed; when none is (a press by the
mouse button) it is at `old + 0.25 * (c - old)`, `old` its position before the
update and `c` the pointer's world position.  A joint that the press creates
in that state is attached to that anchor body. -/
theorem press_anchor_position (WorldToLocal : Body K → Vector K → Vector K) (inp : Input)
    (d : Drawer K) (w : World K) (W H : Int) (hs : w.Sound) :
    ∃ (w3 : World K) (mb : Body K),
      movePointer inp d w W H = some w3 ∧
      handleMouseEvent WorldToLocal inp d w W H
        = pressRelease WorldToLocal inp w3 (pointerWorld inp d w.h.touchIDs W H) ∧
      w3.h.mouseBody = some mb ∧
      (inp.JustPressedTouchIDs ≠ [] → mb.p = pointerWorld inp d w.h.touchIDs W H) ∧
      (inp.JustPressedTouchIDs = [] → ∀ old c : Vector K,
        (anchorBefore w).p = some old → pointerWorld inp d w.h.touchIDs W H = some c →
        mb.p = some (old.Add ((c.Sub old).Mult (25 / 100)))) ∧
      (∀ shape : Shape K,
        (w3.space.PointQueryNearest (pointerWorld inp d w.h.touchIDs W H) 5 grabFilter).Shape
          = some shape →
        shape.body.m < INFINITY →
        ∃ (w4 : World K) (joint : Constraint K),
          onMouseDown WorldToLocal w3 (pointerWorld inp d w.h.touchIDs W H) = some w4 ∧
          w4.h.mouseJoint = some joint ∧ joint ∈ w4.space.constraints ∧
          joint.a = some mb.ref ∧ w4.h.mouseBody = some mb) := by
  obtain ⟨w3, h3, hs3, hb3⟩ := movePointer_sound inp d w W H hs
  refine ⟨w3, _, h3, ?_, hb3, ?_, ?_, ?_⟩
  · rw [handleMouseEvent_eq, h3]
    rfl
  · intro ht
    rw [(isJuestTouched_eq_true_iff inp).2 ht]
    rfl
  · intro ht old c hold hc
    have hf : isJuestTouched inp = false := by
      cases hi : isJuestTouched inp
      · rfl
      · exact absurd ht ((isJuestTouched_eq_true_iff inp).1 hi)
    rw [hf, hc]
    exact (moveAnchor_lerp _ old c hold).1
  · intro shape hshape hmass
    refine ⟨_, _, onMouseDown_press WorldToLocal w3 _ _ shape hb3 hs3.1 hshape hmass, rfl,
      List.mem_append_right _ (List.mem_singleton_self _), ?_, hb3⟩
    simp [pressJoint, NewPivotJoint2, Constraint.SetMaxForce, Constraint.SetErrorBias, hb3]

/-- Witness of C15, amended: the sample scene at the start, with the mouse
button newly pressed. -/
theorem press_anchor_position_witness :
    sampleWorld.Sound ∧
    ∃ (w3 : World ℚ) (mb : Body ℚ),
      movePointer mousePressed sampleDrawer sampleWorld 800 600 = some w3 ∧
      handleMouseEvent sampleToLocal mousePressed sampleDrawer sampleWorld 800 600
        = pressRelease sampleToLocal mousePressed w3
            (pointerWorld mousePressed sampleDrawer sampleWorld.h.touchIDs 800 600) ∧
      w3.h.mouseBody = some mb ∧
      (mousePressed.JustPressedTouchIDs ≠ [] →
        mb.p = pointerWorld mousePressed sampleDrawer sampleWorld.h.touchIDs 800 600) ∧
      (mousePressed.JustPressedTouchIDs = [] → ∀ old c : Vector ℚ,
        (anchorBefore sampleWorld).p = some old →
        pointerWorld mousePressed sampleDrawer sampleWorld.h.touchIDs 800 600 = some c →
        mb.p = some (old.Add ((c.Sub old).Mult (25 / 100)))) ∧
      (∀ shape : Shape ℚ,
        (w3.space.PointQueryNearest
            (pointerWorld mousePressed sampleDrawer sampleWorld.h.touchIDs 800 600) 5
            grabFilter).Shape = some shape →
        shape.body.m < INFINITY →
        ∃ (w4 : World ℚ) (joint : Constraint ℚ),
          onMouseDown sampleToLocal w3
              (pointerWorld mousePressed sampleDrawer sampleWorld.h.touchIDs 800 600)
            = some w4 ∧
          w4.h.mouseJoint = some joint ∧ joint ∈ w4.space.constraints ∧
          joint.a = some mb.ref ∧ w4.h.mouseBody = some mb) :=
  ⟨sampleWorld_sound,
    press_anchor_position sampleToLocal mousePressed sampleDrawer sampleWorld 800 600
      sampleWorld_sound⟩

/-- C18: a run of the handler over any frames, from a state in which no joint
is held and every constraint of the space sits at an address that was handed
out, returns; and in the state it reaches a held joint is an entry of the
constraint list, the space contains its pointer, and `onMouseUp` returns. -/
theorem held_joint_in_space (WorldToLocal : Body K → Vector K → Vector K)
    (frames : List (Frame K)) (w0 : World K) (hidle : w0.h.mouseJoint = none)
    (hfresh : ∀ c ∈ w0.space.constraints, c.ref < w0.next) :
    ∃ w : World K, runFrames WorldToLocal frames w0 = some w ∧
      (∀ j, w.h.mouseJoint = some j →
        j ∈ w.space.constraints ∧ w.space.ContainsConstraint j = true) ∧
      ∃ w' : World K, onMouseUp w = some w' := by
  have hs0 : w0.Sound := ⟨hfresh, fun j hj => by rw [hidle] at hj; cases hj⟩
  obtain ⟨w, hw, hs⟩ := runFrames_sound WorldToLocal frames w0 hs0
  obtain ⟨w', hw', _⟩ := onMouseUp_sound w hs
  refine ⟨w, hw, ?_, w', hw'⟩
  intro j hj
  refine ⟨hs.2 j hj, ?_⟩
  unfold Space.ContainsConstraint
  rw [List.any_eq_true]
  exact ⟨j, hs.2 j hj, by simp⟩

/-- Witness of C18: the sample scene at the start, and three frames: the touch
1 pressed, the touch 2 pressed, the touch 2 released. -/
theorem held_joint_in_space_witness :
    sampleWorld.h.mouseJoint = none ∧
    (∀ c ∈ sampleWorld.space.constraints, c.ref < sampleWorld.next) ∧
    ∃ w : World ℚ,
      runFrames sampleToLocal
        [⟨touchPressed 1, sampleDrawer, sampleQuery⟩, ⟨touchPressed 2, sampleDrawer, sampleQuery⟩,
          ⟨touchReleased 2, sampleDrawer, sampleQuery⟩] sampleWorld = some w ∧
      (∀ j, w.h.mouseJoint = some j →
        j ∈ w.space.constraints ∧ w.space.ContainsConstraint j = true) ∧
      ∃ w' : World ℚ, onMouseUp w = some w' :=
  ⟨rfl, fun c hc => by simp [sampleWorld] at hc,
    held_joint_in_space sampleToLocal _ sampleWorld rfl
      (fun c hc => by simp [sampleWorld] at hc)⟩

end HandlerClaims3

end Ebitencp
